import Mathlib

/-!
Shallow embedding of the CachePilot security gateway core
(src/api/auth.py, src/api/middleware/security.py,
src/api/utils/input_sanitization.py, src/api/utils/executor.py).

Timestamps (Python floats from time.time() / datetime.now()) are modelled
as integers — any fixed granularity of real time; the algorithms use only
+, -, and order comparisons on timestamps.  Python dicts are modelled as
insertion-ordered association lists.  Fallible validators (raise
ValidationError) are modelled with an explicit result type.  The random
token drawn by secrets.token_urlsafe and the subprocess outcomes of the
executor are passed in as explicit arguments, making every operation a
pure function of its inputs.
-/

namespace CachePilot


/-- Result of a fallible validator: models return-value vs raised
ValidationError in input_sanitization.py. -/
inductive Sanitized (α : Type) where
  | ok (val : α)
  | failure (msg : String)
deriving DecidableEq

/-- True iff a validator rejected its input. -/
def Sanitized.isError {α : Type} : Sanitized α → Bool
  | .ok _ => false
  | .failure _ => true

/-! ## Association-list maps (Python dict, insertion ordered) -/

/-- Lookup in an insertion-ordered map. -/
def lookupA {α : Type} : List (String × α) → String → Option α
  | [], _ => none
  | (k, v) :: rest, k' => if k = k' then some v else lookupA rest k'

/-- Lookup with a default value (models dict.get / defaultdict access). -/
def lookupD {α : Type} (m : List (String × α)) (k : String) (d : α) : α :=
  (lookupA m k).getD d

/-- dict assignment `m[k] = v`: replace in place or append. -/
def insertA {α : Type} : List (String × α) → String → α → List (String × α)
  | [], k, v => [(k, v)]
  | (k', v') :: rest, k, v =>
      if k' = k then (k, v) :: rest else (k', v') :: insertA rest k v

/-- dict deletion `del m[k]`. -/
def eraseA {α : Type} : List (String × α) → String → List (String × α)
  | [], _ => []
  | (k', v') :: rest, k =>
      if k' = k then rest else (k', v') :: eraseA rest k

/-! ## Input sanitizer (src/api/utils/input_sanitization.py) -/

/-- Python str.strip(): drop whitespace from both ends. -/
def pyStrip (s : String) : String :=
  ⟨((s.data.dropWhile Char.isWhitespace).reverse.dropWhile Char.isWhitespace).reverse⟩

/-- Split a character list on a separator character. -/
def splitOnChar (sep : Char) : List Char → List (List Char)
  | [] => [[]]
  | c :: rest =>
      match splitOnChar sep rest with
      | [] => [[c]]
      | g :: gs => if c = sep then [] :: g :: gs else (c :: g) :: gs

/-- Is the first string a prefix of the second (str.startswith)? -/
def strPrefix (a b : String) : Bool := a.data.isPrefixOf b.data

/-- The dangerous_chars list of sanitize_command_argument, in source order:
semicolon, pipe, ampersand, dollar, backquote, newline, carriage return,
greater, less, parens, braces. -/
def dangerousChars : List Char :=
  [';', '|', '&', '$', Char.ofNat 96, '\n', '\r', '>', '<',
   '(', ')', Char.ofNat 123, Char.ofNat 125]

/-- Does a character list contain two consecutive dots ("..")? -/
def hasDotDot : List Char → Bool
  | '.' :: '.' :: _ => true
  | _ :: rest => hasDotDot rest
  | [] => false

/-- sanitize_command_argument: scan the dangerous-character list in order,
reject on the first one present in the argument; then reject a ".."
substring; otherwise return the stripped argument. -/
def sanitize_command_argument (arg : String) : Sanitized String :=
  match dangerousChars.find? (fun c => arg.data.contains c) with
  | some c => .failure ("Argument contains dangerous character: " ++ String.mk [c])
  | none =>
      if hasDotDot arg.data then
        .failure "Argument contains directory traversal pattern"
      else
        .ok (pyStrip arg)

/-! ### Path containment (sanitize_file_path)

pathlib is modelled lexically for absolute paths without symlinks:
Path(s) keeps the non-empty, non-"." components; resolve() eliminates
".." by popping (staying at the root when there is nothing to pop);
`base / p` ignores `base` when `p` is absolute. -/

/-- Is the path string absolute? -/
def pathIsAbs (s : String) : Bool :=
  match s.data with
  | '/' :: _ => true
  | _ => false

/-- Path components, dropping empty segments and ".", as pathlib does. -/
def pathComponents (s : String) : List String :=
  ((splitOnChar '/' s.data).map String.mk).filter (fun c => c ≠ "" ∧ c ≠ ".")

/-- One step of lexical resolution: ".." pops, anything else pushes. -/
def resolveStep (acc : List String) (comp : String) : List String :=
  if comp = ".." then acc.dropLast else acc ++ [comp]

/-- resolve() of an absolute path (no symlinks): lexical normalization. -/
def pyResolveAbs (s : String) : List String :=
  (pathComponents s).foldl resolveStep []

/-- Join components of an absolute path with slashes. -/
def joinComps : List String → List Char
  | [] => []
  | [c] => c.data
  | c :: rest => c.data ++ '/' :: joinComps rest

/-- Render an absolute component list back to a string (str(Path)). -/
def renderAbs (comps : List String) : String :=
  ⟨'/' :: joinComps comps⟩

/-- sanitize_file_path: join the candidate under the resolved base
directory, resolve after joining, and require the rendered result to be
string-prefixed by the rendered canonical base. -/
def sanitize_file_path (path base_dir : String) : Sanitized String :=
  if path = "" then .failure "Path must be a non-empty string"
  else if base_dir = "" then .failure "Base directory must be a non-empty string"
  else
    let basePath := pyResolveAbs base_dir
    let joined := if pathIsAbs path then pathComponents path
                  else basePath ++ pathComponents path
    let targetPath := joined.foldl resolveStep []
    if strPrefix (renderAbs basePath) (renderAbs targetPath) then
      .ok (renderAbs targetPath)
    else
      .failure "Path traversal detected"

/-! ## Layer A: key-scoped rate limiter (src/api/auth.py, RateLimiter) -/

/-- Configuration values read from settings (rate_limit_requests = 100,
rate_limit_window = 60 by default, overridable by the config file). -/
structure RLSettings where
  rateLimitRequests : ℕ
  rateLimitWindow : ℤ
deriving DecidableEq

/-- RateLimiter state: identifier "key:endpoint" → request timestamps. -/
structure RateLimiterState where
  requests : List (String × List ℤ)
deriving DecidableEq

/-- RateLimiter.check_rate_limit: prune to the window (keeping entries with
req_time > window_start), store the pruned list, reject at the limit,
otherwise append now and admit. -/
def check_rate_limit (st : RLSettings) (now : ℤ) (key endpoint : String)
    (s : RateLimiterState) : Bool × RateLimiterState :=
  let identifier := key ++ ":" ++ endpoint
  let windowStart := now - st.rateLimitWindow
  let reqs := (lookupD s.requests identifier []).filter (fun t => windowStart < t)
  if st.rateLimitRequests ≤ reqs.length then
    (false, ⟨insertA s.requests identifier reqs⟩)
  else
    (true, ⟨insertA s.requests identifier (reqs ++ [now])⟩)

/-- RateLimiter.get_remaining. -/
def get_remaining (st : RLSettings) (now : ℤ) (key endpoint : String)
    (s : RateLimiterState) : ℕ :=
  let identifier := key ++ ":" ++ endpoint
  let windowStart := now - st.rateLimitWindow
  match lookupA s.requests identifier with
  | none => st.rateLimitRequests
  | some reqs => st.rateLimitRequests - (reqs.filter (fun t => windowStart < t)).length

/-- Run a sequence of checks for one subject, returning the final state and
the list of admission results in call order. -/
def runA (st : RLSettings) (key endpoint : String) :
    List ℤ → RateLimiterState → RateLimiterState × List Bool
  | [], s => (s, [])
  | t :: ts, s =>
      let r := check_rate_limit st t key endpoint s
      let rest := runA st key endpoint ts r.2
      (rest.1, r.1 :: rest.2)

/-! ## Layer B: address-scoped middleware (src/api/middleware/security.py) -/

/-- RateLimitMiddleware constructor arguments (default_limit = 100,
default_window = 60). -/
structure MWConfig where
  defaultLimit : ℕ
  defaultWindow : ℤ
deriving DecidableEq

/-- The fixed endpoint_limits table, in source (dict-literal) order:
path prefix → (limit, window). -/
def endpointLimits : List (String × ℕ × ℤ) :=
  [("/api/auth/login", (5, 60)),
   ("/api/tenants", (50, 60)),
   ("/api/monitoring", (200, 60)),
   ("/api/system", (30, 60))]

/-- Resolve the (limit, window) for a request path: first table entry whose
prefix matches, else the defaults. -/
def routeLimitWindow (cfg : MWConfig) (path : String) : ℕ × ℤ :=
  match endpointLimits.find? (fun e => strPrefix e.1 path) with
  | some e => e.2
  | none => (cfg.defaultLimit, cfg.defaultWindow)

/-- Middleware state: request windows keyed by the joined string
"ip:path", plus the blocked-address table ip → block-until time. -/
structure MWState where
  requests : List (String × List ℤ)
  blockedIps : List (String × ℤ)
deriving DecidableEq

/-- RateLimitMiddleware._is_blocked: active block → true; expired block is
lazily deleted. -/
def isBlocked (now : ℤ) (ip : String) (s : MWState) : Bool × MWState :=
  match lookupA s.blockedIps ip with
  | some blockUntil =>
      if now < blockUntil then (true, s)
      else (false, { s with blockedIps := eraseA s.blockedIps ip })
  | none => (false, s)

/-- RateLimitMiddleware._block_ip with the default 15-minute duration. -/
def block_ip (now : ℤ) (ip : String) (s : MWState) : MWState :=
  { s with blockedIps := insertA s.blockedIps ip (now + 15 * 60) }

/-- RateLimitMiddleware._check_rate_limit: blocked addresses are rejected
before the window is consulted; otherwise prune a local copy of the
window (keeping entries with now - t < window), reject at the limit
(escalating to a block when the pruned count reaches twice the limit,
without storing the pruned list), else store pruned ++ [now] and admit. -/
def mwCheckRateLimit (cfg : MWConfig) (now : ℤ) (ip path : String)
    (s : MWState) : Bool × MWState :=
  let b := isBlocked now ip s
  if b.1 then (false, b.2)
  else
    let s1 := b.2
    let lw := routeLimitWindow cfg path
    let requestKey := ip ++ ":" ++ path
    let reqs := (lookupD s1.requests requestKey []).filter (fun t => now - t < lw.2)
    if lw.1 ≤ reqs.length then
      if 2 * lw.1 ≤ reqs.length then (false, block_ip now ip s1)
      else (false, s1)
    else
      (true, { s1 with requests := insertA s1.requests requestKey (reqs ++ [now]) })

/-- Run a sequence of middleware checks for one (address, path), returning
the final state and the admission results in call order. -/
def runB (cfg : MWConfig) (ip path : String) :
    List ℤ → MWState → MWState × List Bool
  | [], s => (s, [])
  | t :: ts, s =>
      let r := mwCheckRateLimit cfg t ip path s
      let rest := runB cfg ip path ts r.2
      (rest.1, r.1 :: rest.2)

/-- Run a sequence of middleware checks with arbitrary (address, path, time)
triples (one per inbound request), returning the final state. -/
def runBReq (cfg : MWConfig) : List (String × String × ℤ) → MWState → MWState
  | [], s => s
  | (ip, path, t) :: rest, s =>
      runBReq cfg rest (mwCheckRateLimit cfg t ip path s).2

/-! ## SHA-256 (hashlib.sha256(...).hexdigest()) and url-safe base64
(secrets.token_urlsafe), modelled bit-exactly over ℕ with explicit
mod-2^32 arithmetic. -/

/-- 32-bit wrap-around addition. -/
def add32 (a b : ℕ) : ℕ := (a + b) % 4294967296

/-- Rotate a 32-bit word right by n bits. -/
def rotr32 (n a : ℕ) : ℕ := ((a >>> n) ||| (a <<< (32 - n))) % 4294967296

/-- SHA-256 message-schedule sigma-0. -/
def sSig0 (x : ℕ) : ℕ := (rotr32 7 x) ^^^ (rotr32 18 x) ^^^ (x >>> 3)

/-- SHA-256 message-schedule sigma-1. -/
def sSig1 (x : ℕ) : ℕ := (rotr32 17 x) ^^^ (rotr32 19 x) ^^^ (x >>> 10)

/-- SHA-256 round Sigma-0. -/
def bSig0 (x : ℕ) : ℕ := (rotr32 2 x) ^^^ (rotr32 13 x) ^^^ (rotr32 22 x)

/-- SHA-256 round Sigma-1. -/
def bSig1 (x : ℕ) : ℕ := (rotr32 6 x) ^^^ (rotr32 11 x) ^^^ (rotr32 25 x)

/-- SHA-256 choice function (not x is taken within 32 bits). -/
def chF (x y z : ℕ) : ℕ := (x &&& y) ^^^ ((x ^^^ 4294967295) &&& z)

/-- SHA-256 majority function. -/
def majF (x y z : ℕ) : ℕ := (x &&& y) ^^^ (x &&& z) ^^^ (y &&& z)

/-- The 64 SHA-256 round constants. -/
def shaK : List ℕ :=
  [1116352408, 1899447441, 3049323471, 3921009573, 961987163, 1508970993, 2453635748, 2870763221,
   3624381080, 310598401, 607225278, 1426881987, 1925078388, 2162078206, 2614888103, 3248222580,
   3835390401, 4022224774, 264347078, 604807628, 770255983, 1249150122, 1555081692, 1996064986,
   2554220882, 2821834349, 2952996808, 3210313671, 3336571891, 3584528711, 113926993, 338241895,
   666307205, 773529912, 1294757372, 1396182291, 1695183700, 1986661051, 2177026350, 2456956037,
   2730485921, 2820302411, 3259730800, 3345764771, 3516065817, 3600352804, 4094571909, 275423344,
   430227734, 506948616, 659060556, 883997877, 958139571, 1322822218, 1537002063, 1747873779,
   1955562222, 2024104815, 2227730452, 2361852424, 2428436474, 2756734187, 3204031479, 3329325298]

/-- The eight 32-bit working variables / hash state. -/
structure Hash8 where
  va : ℕ
  vb : ℕ
  vc : ℕ
  vd : ℕ
  ve : ℕ
  vf : ℕ
  vg : ℕ
  vh : ℕ
deriving DecidableEq

/-- SHA-256 initial hash value. -/
def shaInit : Hash8 :=
  ⟨1779033703, 3144134277, 1013904242, 2773480762,
   1359893119, 2600822924, 528734635, 1541459225⟩

/-- One schedule extension step; ws holds the schedule so far, most recent
word first, so indices 1, 6, 14, 15 are w[t-2], w[t-7], w[t-15], w[t-16]. -/
def scheduleStep (ws : List ℕ) : ℕ :=
  add32 (add32 (sSig1 (ws.getD 1 0)) (ws.getD 6 0))
        (add32 (sSig0 (ws.getD 14 0)) (ws.getD 15 0))

/-- Extend the reversed schedule by n words. -/
def buildSchedule : ℕ → List ℕ → List ℕ
  | 0, ws => ws
  | n + 1, ws => buildSchedule n (scheduleStep ws :: ws)

/-- One SHA-256 round, consuming K[t] and W[t]. -/
def shaRound (st : Hash8) (kw : ℕ × ℕ) : Hash8 :=
  let t1 := add32 (add32 st.vh (bSig1 st.ve))
                  (add32 (chF st.ve st.vf st.vg) (add32 kw.1 kw.2))
  let t2 := add32 (bSig0 st.va) (majF st.va st.vb st.vc)
  ⟨add32 t1 t2, st.va, st.vb, st.vc, add32 st.vd t1, st.ve, st.vf, st.vg⟩

/-- Compress one 16-word block into the running hash. -/
def processBlock (h : Hash8) (block : List ℕ) : Hash8 :=
  let ws := (buildSchedule 48 block.reverse).reverse
  let r := (shaK.zip ws).foldl shaRound h
  ⟨add32 h.va r.va, add32 h.vb r.vb, add32 h.vc r.vc, add32 h.vd r.vd,
   add32 h.ve r.ve, add32 h.vf r.vf, add32 h.vg r.vg, add32 h.vh r.vh⟩

/-- Assemble big-endian 32-bit words from a byte list. -/
def wordsOfBytes : List ℕ → List ℕ
  | a :: b :: c :: d :: rest => (((a * 256 + b) * 256 + c) * 256 + d) :: wordsOfBytes rest
  | _ => []

/-- Split a word list into 16-word chunks (fuel-driven for structural
recursion; the fuel is the list length, always sufficient). -/
def chunksAux : ℕ → List ℕ → List (List ℕ)
  | 0, _ => []
  | _, [] => []
  | n + 1, a :: w => ((a :: w).take 16) :: chunksAux n ((a :: w).drop 16)

/-- Split a word list into 16-word chunks. -/
def chunks16 (l : List ℕ) : List (List ℕ) := chunksAux l.length l

/-- Big-endian byte expansion of a value into n bytes. -/
def beBytes : ℕ → ℕ → List ℕ
  | 0, _ => []
  | n + 1, v => beBytes n (v / 256) ++ [v % 256]

/-- SHA-256 padding: a 0x80 byte, zeros to 56 mod 64, then the bit length
as an 8-byte big-endian value. -/
def padBytes (msg : List ℕ) : List ℕ :=
  msg ++ [128] ++ List.replicate ((119 - msg.length % 64) % 64) 0 ++ beBytes 8 (8 * msg.length)

/-- The 32 digest bytes of a final hash state. -/
def hash8Bytes (h : Hash8) : List ℕ :=
  beBytes 4 h.va ++ beBytes 4 h.vb ++ beBytes 4 h.vc ++ beBytes 4 h.vd ++
  beBytes 4 h.ve ++ beBytes 4 h.vf ++ beBytes 4 h.vg ++ beBytes 4 h.vh

/-- SHA-256 of a byte list. -/
def sha256Bytes (msg : List ℕ) : List ℕ :=
  hash8Bytes ((chunks16 (wordsOfBytes (padBytes msg))).foldl processBlock shaInit)

/-- Lowercase hex digit. -/
def hexDigitChar (n : ℕ) : Char :=
  if n < 10 then Char.ofNat (48 + n) else Char.ofNat (87 + n)

/-- Lowercase hex rendering of a byte list (hexdigest). -/
def hexOfBytes (bs : List ℕ) : List Char :=
  bs.flatMap (fun b => [hexDigitChar (b / 16), hexDigitChar (b % 16)])

/-- UTF-8 encoding of one character (str.encode()). -/
def utf8Char (c : Char) : List ℕ :=
  let n := c.toNat
  if n < 128 then [n]
  else if n < 2048 then [192 + n / 64, 128 + n % 64]
  else if n < 65536 then [224 + n / 4096, 128 + (n / 64) % 64, 128 + n % 64]
  else [240 + n / 262144, 128 + (n / 4096) % 64, 128 + (n / 64) % 64, 128 + n % 64]

/-- UTF-8 encoding of a character list. -/
def utf8Bytes (cs : List Char) : List ℕ := cs.flatMap utf8Char

/-- hashlib.sha256(key.encode()).hexdigest(). -/
def sha256Hex (s : String) : String :=
  ⟨hexOfBytes (sha256Bytes (utf8Bytes s.data))⟩

/-! ### secrets.token_urlsafe(32): URL-safe base64 of 32 random bytes,
padding stripped.  The randomness is passed in as an explicit byte list. -/

/-- The URL-safe base64 alphabet. -/
def b64Alphabet : List Char :=
  "ABCDEFGHIJKLMNOPQRSTUVWXYZabcdefghijklmnopqrstuvwxyz0123456789-_".data

/-- Character for a 6-bit value. -/
def b64Char (n : ℕ) : Char := b64Alphabet.getD n 'A'

/-- 6-bit value of an alphabet character (inverse of b64Char). -/
def b64Val (c : Char) : ℕ := ((b64Alphabet.indexOf c) : ℕ)

/-- URL-safe base64 encoding without padding characters. -/
def b64urlEncode : List ℕ → List Char
  | a :: b :: c :: rest =>
      b64Char (a / 4) :: b64Char ((a % 4) * 16 + b / 16) ::
      b64Char ((b % 16) * 4 + c / 64) :: b64Char (c % 64) :: b64urlEncode rest
  | [a, b] =>
      [b64Char (a / 4), b64Char ((a % 4) * 16 + b / 16), b64Char ((b % 16) * 4)]
  | [a] => [b64Char (a / 4), b64Char ((a % 4) * 16)]
  | [] => []

/-- Decoder used only to prove the encoding injective (entropy-preserving). -/
def b64urlDecode : List Char → List ℕ
  | c1 :: c2 :: c3 :: c4 :: rest =>
      ((b64Val c1) * 4 + (b64Val c2) / 16) ::
      (((b64Val c2) % 16) * 16 + (b64Val c3) / 4) ::
      (((b64Val c3) % 4) * 64 + (b64Val c4)) :: b64urlDecode rest
  | [c1, c2, c3] =>
      [(b64Val c1) * 4 + (b64Val c2) / 16, ((b64Val c2) % 16) * 16 + (b64Val c3) / 4]
  | [c1, c2] => [(b64Val c1) * 4 + (b64Val c2) / 16]
  | _ => []

/-- secrets.token_urlsafe over the given 32 entropy bytes. -/
def token_urlsafe (bytes : List ℕ) : String := ⟨b64urlEncode bytes⟩

/-! ## Security events (log_security_event), restricted to the auth-gate
events the claims are about. -/

/-- One structured security event. -/
inductive SecEvent where
  | authSuccess (ip keyName : String) (requestCount : ℕ)
  | authFailure (ip reason : String) (recentFailures : ℕ)
  | authAbuse (ip reason : String) (failureCount : ℕ)
deriving DecidableEq

/-! ## Credential store / auth gate (src/api/auth.py, APIKeyManager)

The backing JSON file is modelled as part of the state (keyFile); save
writes keys to it, load reads it back.  File permissions and I/O errors
are outside the modelled claims. -/

/-- One stored key record (the JSON object kept under the digest). -/
structure KeyRecord where
  name : String
  permissions : List String
  created : ℤ
  lastUsed : Option ℤ
  requestCount : ℕ
deriving DecidableEq

/-- APIKeyManager state: in-memory keys, the backing file, the load
timestamp, and the per-address failed-attempt windows. -/
structure ManagerState where
  keys : List (String × KeyRecord)
  keyFile : List (String × KeyRecord)
  lastLoadTime : ℤ
  failedAttempts : List (String × List ℤ)
deriving DecidableEq

/-- The fixed credential-cache TTL (30 s). -/
def cacheTtl : ℤ := 30

/-- APIKeyManager.load_keys (file present and well-formed). -/
def load_keys (now : ℤ) (s : ManagerState) : ManagerState :=
  { s with keys := s.keyFile, lastLoadTime := now }

/-- APIKeyManager._should_reload. -/
def shouldReload (now : ℤ) (s : ManagerState) : Bool :=
  cacheTtl < now - s.lastLoadTime

/-- APIKeyManager._reload_if_needed. -/
def reloadIfNeeded (now : ℤ) (s : ManagerState) : ManagerState :=
  if shouldReload now s then load_keys now s else s

/-- APIKeyManager.save_keys: persist the in-memory snapshot. -/
def save_keys (s : ManagerState) : ManagerState := { s with keyFile := s.keys }

/-- APIKeyManager.generate_key, with the random token passed explicitly:
store a fresh record under the token's digest, persist, return the raw
token. -/
def generate_key (token name : String) (permissions : List String) (now : ℤ)
    (s : ManagerState) : String × ManagerState :=
  let keyHash := sha256Hex token
  let rec0 : KeyRecord :=
    ⟨name, if permissions.isEmpty then ["*"] else permissions, now, none, 0⟩
  (token, save_keys { s with keys := insertA s.keys keyHash rec0 })

/-- APIKeyManager._log_failed_attempt: append the failure time, prune the
address's window to the 300 s horizon, emit auth_failure, and emit
auth_abuse when the pruned count is at least 5. -/
def log_failed_attempt (ip reason : String) (now : ℤ) (s : ManagerState) :
    ManagerState × List SecEvent :=
  let appended := lookupD s.failedAttempts ip [] ++ [now]
  let recent := appended.filter (fun t => now - t < 300)
  let s1 := { s with failedAttempts := insertA s.failedAttempts ip recent }
  if 5 ≤ recent.length then
    (s1, [SecEvent.authFailure ip reason recent.length,
          SecEvent.authAbuse ip "multiple_failed_attempts" recent.length])
  else
    (s1, [SecEvent.authFailure ip reason recent.length])

/-- APIKeyManager.validate_key: empty key → failure; otherwise reload if
stale, look the digest up, and on a hit bump last_used / request_count in
place and return the record. -/
def validate_key (key ip : String) (now : ℤ) (s : ManagerState) :
    Option KeyRecord × ManagerState × List SecEvent :=
  if key = "" then
    let r := log_failed_attempt ip "empty_key" now s
    (none, r.1, r.2)
  else
    let s1 := reloadIfNeeded now s
    let keyHash := sha256Hex key
    match lookupA s1.keys keyHash with
    | some rec0 =>
        let rec1 := { rec0 with lastUsed := some now,
                                requestCount := rec0.requestCount + 1 }
        (some rec1, { s1 with keys := insertA s1.keys keyHash rec1 },
         [SecEvent.authSuccess ip rec1.name rec1.requestCount])
    | none =>
        let r := log_failed_attempt ip "invalid_key" now s1
        (none, r.1, r.2)

/-- APIKeyManager.revoke_key: drop the digest's record and persist,
reporting whether a record was removed. -/
def revoke_key (key : String) (s : ManagerState) : Bool × ManagerState :=
  let keyHash := sha256Hex key
  match lookupA s.keys keyHash with
  | some _ => (true, save_keys { s with keys := eraseA s.keys keyHash })
  | none => (false, s)

/-- The operations that touch the credential store. -/
inductive MgrOp where
  | validate (key ip : String) (now : ℤ)
  | genkey (token name : String) (permissions : List String) (now : ℤ)
  | revoke (key : String)
  | save
  | load (now : ℤ)
deriving DecidableEq

/-- State transition of one operation. -/
def applyOp (s : ManagerState) : MgrOp → ManagerState
  | .validate key ip now => (validate_key key ip now s).2.1
  | .genkey token name permissions now => (generate_key token name permissions now s).2
  | .revoke key => (revoke_key key s).2
  | .save => save_keys s
  | .load now => load_keys now s

/-- Run a sequence of operations. -/
def runMgr (s : ManagerState) : List MgrOp → ManagerState
  | [] => s
  | op :: ops => runMgr (applyOp s op) ops

/-- The empty manager state (fresh instance over a missing key file). -/
def emptyMgr : ManagerState := ⟨[], [], 0, []⟩

/-! ## Command executor (src/api/utils/executor.py, CommandExecutor)

The subprocess call is modelled by an oracle giving the outcome of any
command vector; execute returns its structured result together with the
list of subprocess invocations it actually performed. -/

/-- The fixed ALLOWED_COMMANDS whitelist. -/
def ALLOWED_COMMANDS : List String :=
  ["tenant", "create", "delete", "list", "status",
   "backup", "restore", "list-backups", "verify-backup",
   "backup-enable", "backup-disable", "backup-status", "backup-enable-all",
   "cert", "renew",
   "health", "check", "stats",
   "monitoring", "metrics",
   "config", "get", "set",
   "redis", "cli", "info", "restart", "start", "stop",
   "new", "rm", "set-memory", "rotate", "handover"]

/-- Outcome of one subprocess.run call: captured output and exit code, or
a TimeoutExpired. -/
structure SubResult where
  returncode : ℤ
  stdout : String
  stderr : String
  timedOut : Bool
deriving DecidableEq

/-- CommandExecutor._validate_command: non-empty and whitelisted. -/
def validate_command (command : String) : Sanitized Unit :=
  if command = "" then .failure "Command must be a non-empty string"
  else if ALLOWED_COMMANDS.contains command then .ok ()
  else .failure ("Command '" ++ command ++ "' is not allowed")

/-- CommandExecutor._sanitize_arguments: sanitize each argument in order,
failing on the first rejection. -/
def sanitize_arguments : List String → Sanitized (List String)
  | [] => .ok []
  | a :: rest =>
      match sanitize_command_argument a with
      | .failure msg => .failure msg
      | .ok sa =>
          match sanitize_arguments rest with
          | .failure msg => .failure msg
          | .ok srest => .ok (sa :: srest)

/-- CommandExecutor.execute: whitelist check, argument sanitization, then
the subprocess (timeout 30); returns ((success, stdout, stderr), spawned
invocations). -/
def execute (runner : ℕ → List String → SubResult) (cliPath : String)
    (command : String) (args : List String) :
    (Bool × String × String) × List (List String) :=
  match validate_command command with
  | .failure msg => ((false, "", msg), [])
  | .ok _ =>
      match sanitize_arguments args with
      | .failure msg => ((false, "", msg), [])
      | .ok sanitizedArgs =>
          let cmd := cliPath :: command :: sanitizedArgs
          let r := runner 30 cmd
          if r.timedOut then ((false, "", "Command timeout"), [cmd])
          else ((decide (r.returncode = 0), r.stdout, r.stderr), [cmd])

/-- CommandExecutor.execute_with_timeout: same checks, caller-chosen
timeout, and a timeout message naming the timeout. -/
def execute_with_timeout (runner : ℕ → List String → SubResult) (cliPath : String)
    (command : String) (timeout : ℕ) (args : List String) :
    (Bool × String × String) × List (List String) :=
  match validate_command command with
  | .failure msg => ((false, "", msg), [])
  | .ok _ =>
      match sanitize_arguments args with
      | .failure msg => ((false, "", msg), [])
      | .ok sanitizedArgs =>
          let cmd := cliPath :: command :: sanitizedArgs
          let r := runner timeout cmd
          if r.timedOut then
            ((false, "", "Command timeout after " ++ toString timeout ++ "s"), [cmd])
          else ((decide (r.returncode = 0), r.stdout, r.stderr), [cmd])

/-! ## Map lemmas -/

/-- Keys of a dict-model are pairwise distinct (Python dict semantics;
holds for every state reachable through insertA / eraseA from []). -/
def DKeys {α : Type} (m : List (String × α)) : Prop :=
  m.Pairwise (fun a b => a.1 ≠ b.1)

theorem lookupA_insertA {α : Type} (m : List (String × α)) (k k' : String) (v : α) :
    lookupA (insertA m k v) k' = if k = k' then some v else lookupA m k' := by
  induction m with
  | nil => simp [insertA, lookupA]
  | cons hd t ih =>
      obtain ⟨k₀, v₀⟩ := hd
      simp only [insertA, lookupA]
      split_ifs with h1 h2 h3 <;> simp_all [lookupA]

theorem lookupA_eraseA_none {α : Type} (m : List (String × α)) (k k' : String)
    (h : lookupA m k' = none) : lookupA (eraseA m k) k' = none := by
  induction m with
  | nil => simpa [eraseA] using h
  | cons hd t ih =>
      obtain ⟨k₀, v₀⟩ := hd
      simp only [lookupA] at h
      by_cases hk : k₀ = k'
      · simp [hk] at h
      · simp only [if_neg hk] at h
        by_cases he : k₀ = k
        · simpa [eraseA, he] using h
        · simp [eraseA, he, lookupA, hk, ih h]

theorem lookupD_insertA_self {α : Type} (m : List (String × α)) (k : String)
    (v : α) (d : α) : lookupD (insertA m k v) k d = v := by
  simp [lookupD, lookupA_insertA]

theorem lookupA_eq_none_of_all_ne {α : Type} (m : List (String × α)) (k : String)
    (h : ∀ p ∈ m, p.1 ≠ k) : lookupA m k = none := by
  induction m with
  | nil => rfl
  | cons hd t ih =>
      obtain ⟨k₀, v₀⟩ := hd
      have h0 : ¬ (k₀ = k) := h (k₀, v₀) (by simp)
      simp only [lookupA, if_neg h0]
      exact ih (fun p hp => h p (by simp [hp]))

theorem lookupA_eraseA_self {α : Type} (m : List (String × α)) (k : String)
    (hdk : DKeys m) : lookupA (eraseA m k) k = none := by
  induction m with
  | nil => simp [eraseA, lookupA]
  | cons hd t ih =>
      obtain ⟨k₀, v₀⟩ := hd
      rcases List.pairwise_cons.mp hdk with ⟨hne, ht⟩
      by_cases he : k₀ = k
      · subst he
        simp only [eraseA, if_pos rfl]
        exact lookupA_eq_none_of_all_ne t k₀ (fun p hp h => hne p hp h.symm)
      · simp [eraseA, he, lookupA, ih ht]

theorem lookupA_eraseA_ne {α : Type} (m : List (String × α)) (k k' : String)
    (h : k ≠ k') : lookupA (eraseA m k) k' = lookupA m k' := by
  induction m with
  | nil => simp [eraseA]
  | cons hd t ih =>
      obtain ⟨k₀, v₀⟩ := hd
      by_cases he : k₀ = k
      · subst he
        have : ¬ (k₀ = k') := h
        simp [eraseA, lookupA, this]
      · simp [eraseA, he, lookupA, ih]

/-! ## Sanitizer lemmas and claim theorems C8, C7 -/

theorem contains_eq_true_of_mem {α : Type} [BEq α] [LawfulBEq α] {c : α}
    {l : List α} (h : c ∈ l) : l.contains c = true :=
  List.elem_iff.mpr h

theorem contains_eq_false_of_not_mem {α : Type} [BEq α] [LawfulBEq α] {c : α}
    {l : List α} (h : c ∉ l) : l.contains c = false := by
  rw [Bool.eq_false_iff]
  intro hc
  exact h (List.elem_iff.mp hc)

/-- Claim C8: sanitize_command_argument rejects every string containing one
of the shell metacharacters or the substring "..", returns every other
string stripped of surrounding whitespace, and in particular passes
"my-tenant-01" unchanged. -/
theorem sanitize_command_argument_spec :
    (∀ a : String, ((∃ c ∈ dangerousChars, c ∈ a.data) ∨ hasDotDot a.data = true) →
        (sanitize_command_argument a).isError = true)
  ∧ (∀ a : String, (∀ c ∈ dangerousChars, c ∉ a.data) → hasDotDot a.data = false →
        sanitize_command_argument a = .ok (pyStrip a))
  ∧ sanitize_command_argument "my-tenant-01" = .ok "my-tenant-01" := by
  refine ⟨?_, ?_, by decide⟩
  · intro a h
    unfold sanitize_command_argument
    cases hf : dangerousChars.find? (fun c => a.data.contains c) with
    | some c => simp [Sanitized.isError]
    | none =>
        rcases h with ⟨c, hc, hmem⟩ | hdd
        · exact absurd (contains_eq_true_of_mem hmem)
            (by simpa using List.find?_eq_none.mp hf c hc)
        · simp [hdd, Sanitized.isError]
  · intro a hchars hdd
    have hf : dangerousChars.find? (fun c => a.data.contains c) = none :=
      List.find?_eq_none.mpr (fun c hc => by
        simp only [Bool.not_eq_true]
        exact contains_eq_false_of_not_mem (hchars c hc))
    unfold sanitize_command_argument
    rw [hf, if_neg (by simp [hdd])]

/-- Witness for C8 at concrete inputs. -/
theorem sanitize_command_argument_spec_witness :
    (sanitize_command_argument "a;b").isError = true
  ∧ (sanitize_command_argument "a..b").isError = true
  ∧ sanitize_command_argument "  tenant-x " = .ok (pyStrip "  tenant-x ") :=
  ⟨sanitize_command_argument_spec.1 "a;b" (Or.inl ⟨';', by decide, by decide⟩),
   sanitize_command_argument_spec.1 "a..b" (Or.inr (by decide)),
   sanitize_command_argument_spec.2.1 "  tenant-x " (by decide) (by decide)⟩

/-- Claim C7: sanitize_file_path joins the candidate under the base,
canonicalizes after joining, and only returns paths string-prefixed by
the canonical base; "../../etc/passwd" under /var/cachepilot/tenants is
rejected and "tenant-a" resolves under the base. -/
theorem sanitize_file_path_spec :
    (∀ p b t : String, sanitize_file_path p b = .ok t →
        strPrefix (renderAbs (pyResolveAbs b)) t = true)
  ∧ sanitize_file_path "../../etc/passwd" "/var/cachepilot/tenants" =
      .failure "Path traversal detected"
  ∧ sanitize_file_path "tenant-a" "/var/cachepilot/tenants" =
      .ok "/var/cachepilot/tenants/tenant-a"
  ∧ strPrefix "/var/cachepilot/tenants" "/var/cachepilot/tenants/tenant-a" = true := by
  refine ⟨?_, by decide, by decide, by decide⟩
  intro p b t h
  simp only [sanitize_file_path] at h
  split at h
  · exact Sanitized.noConfusion h
  · split at h
    · exact Sanitized.noConfusion h
    · split at h
      · split at h
        · rename_i hc
          injection h with h
          exact h ▸ hc
        · exact Sanitized.noConfusion h
      · split at h
        · rename_i hc
          injection h with h
          exact h ▸ hc
        · exact Sanitized.noConfusion h

/-- Witness for C7 at a concrete input. -/
theorem sanitize_file_path_spec_witness :
    strPrefix (renderAbs (pyResolveAbs "/var/cachepilot/tenants"))
      "/var/cachepilot/tenants/tenant-a" = true :=
  sanitize_file_path_spec.1 "tenant-a" "/var/cachepilot/tenants"
    "/var/cachepilot/tenants/tenant-a" (by decide)

/-! ## Executor lemmas and claim theorem C9 -/

theorem validate_command_ok_iff (c : String) :
    (validate_command c).isError = false ↔ c ∈ ALLOWED_COMMANDS := by
  unfold validate_command
  by_cases h : c = ""
  · subst h
    simp [Sanitized.isError]
    decide
  · rw [if_neg h]
    by_cases hm : c ∈ ALLOWED_COMMANDS
    · rw [if_pos (contains_eq_true_of_mem hm)]
      simp [Sanitized.isError, hm]
    · rw [if_neg (by simpa using hm)]
      simpa [Sanitized.isError] using hm

theorem sanitize_arguments_ok_iff (args : List String) :
    (sanitize_arguments args).isError = false ↔
      ∀ a ∈ args, (sanitize_command_argument a).isError = false := by
  induction args with
  | nil => simp [sanitize_arguments, Sanitized.isError]
  | cons a rest ih =>
      simp only [sanitize_arguments]
      cases ha : sanitize_command_argument a with
      | failure msg =>
          simp only [Sanitized.isError]
          constructor
          · intro h; exact Bool.noConfusion h
          · intro h
            have h1 := h a (by simp)
            rw [ha] at h1
            exact Bool.noConfusion h1
      | ok sa =>
          cases hr : sanitize_arguments rest with
          | failure msg =>
              simp only [Sanitized.isError]
              constructor
              · intro h; exact Bool.noConfusion h
              · intro h
                have h2 := ih.mpr (fun x hx => h x (by simp [hx]))
                rw [hr] at h2
                exact Bool.noConfusion h2
          | ok srest =>
              simp only [Sanitized.isError]
              constructor
              · intro _ x hx
                rcases List.mem_cons.mp hx with h1 | h2
                · rw [h1, ha]
                · exact (ih.mp (by simp [hr, Sanitized.isError])) x h2
              · intro _; trivial

/-- Claim C9: for a non-whitelisted command or any argument failing
sanitization, execute and execute_with_timeout return a structured
failure and spawn no subprocess; a subprocess is spawned only when the
command is whitelisted and all arguments sanitize. -/
theorem executor_gate_spec :
    ∀ (runner : ℕ → List String → SubResult) (cli command : String)
      (args : List String) (tmo : ℕ),
    ((command ∉ ALLOWED_COMMANDS ∨ ∃ a ∈ args, (sanitize_command_argument a).isError = true) →
       ∃ msg, execute runner cli command args = ((false, "", msg), [])
         ∧ execute_with_timeout runner cli command tmo args = ((false, "", msg), []))
  ∧ ((execute runner cli command args).2 ≠ [] →
       command ∈ ALLOWED_COMMANDS ∧ ∀ a ∈ args, (sanitize_command_argument a).isError = false)
  ∧ ((execute_with_timeout runner cli command tmo args).2 ≠ [] →
       command ∈ ALLOWED_COMMANDS ∧ ∀ a ∈ args, (sanitize_command_argument a).isError = false) := by
  intro runner cli command args tmo
  cases hv : validate_command command with
  | failure msg =>
      refine ⟨fun _ => ⟨msg, ?_, ?_⟩, ?_, ?_⟩
      · simp [execute, hv]
      · simp [execute_with_timeout, hv]
      · intro h
        exact absurd (by simp [execute, hv] : (execute runner cli command args).2 = []) h
      · intro h
        exact absurd (by simp [execute_with_timeout, hv] :
          (execute_with_timeout runner cli command tmo args).2 = []) h
  | ok u =>
      have hm : command ∈ ALLOWED_COMMANDS :=
        (validate_command_ok_iff command).mp (by simp [hv, Sanitized.isError])
      cases hs : sanitize_arguments args with
      | failure msg =>
          refine ⟨fun _ => ⟨msg, ?_, ?_⟩, ?_, ?_⟩
          · simp [execute, hv, hs]
          · simp [execute_with_timeout, hv, hs]
          · intro h
            exact absurd (by simp [execute, hv, hs] :
              (execute runner cli command args).2 = []) h
          · intro h
            exact absurd (by simp [execute_with_timeout, hv, hs] :
              (execute_with_timeout runner cli command tmo args).2 = []) h
      | ok sargs =>
          have hargs : ∀ a ∈ args, (sanitize_command_argument a).isError = false :=
            (sanitize_arguments_ok_iff args).mp (by simp [hs, Sanitized.isError])
          refine ⟨?_, fun _ => ⟨hm, hargs⟩, fun _ => ⟨hm, hargs⟩⟩
          intro hbad
          rcases hbad with hnm | ⟨a, ha, herr⟩
          · exact absurd hm hnm
          · exact absurd (hargs a ha) (by simp [herr])

/-- Witness for C9: a non-whitelisted command and a dangerous argument. -/
theorem executor_gate_spec_witness :
    (∃ msg,
       execute (fun _ _ => ⟨0, "", "", false⟩) "/opt/cachepilot/cli/cachepilot" "evil" ["x"] =
         ((false, "", msg), [])
     ∧ execute_with_timeout (fun _ _ => ⟨0, "", "", false⟩) "/opt/cachepilot/cli/cachepilot"
         "evil" 5 ["x"] = ((false, "", msg), []))
  ∧ (∃ msg,
       execute (fun _ _ => ⟨0, "", "", false⟩) "/opt/cachepilot/cli/cachepilot" "tenant"
         ["a;b"] = ((false, "", msg), [])
     ∧ execute_with_timeout (fun _ _ => ⟨0, "", "", false⟩) "/opt/cachepilot/cli/cachepilot"
         "tenant" 5 ["a;b"] = ((false, "", msg), [])) :=
  ⟨(executor_gate_spec (fun _ _ => ⟨0, "", "", false⟩) "/opt/cachepilot/cli/cachepilot"
      "evil" ["x"] 5).1 (Or.inl (by decide)),
   (executor_gate_spec (fun _ _ => ⟨0, "", "", false⟩) "/opt/cachepilot/cli/cachepilot"
      "tenant" ["a;b"] 5).1 (Or.inr ⟨"a;b", by decide, by decide⟩)⟩


/-! ## Sliding-window run lemmas -/

theorem map_decide_congr {n : ℕ} {f g : ℕ → Bool} (h : ∀ i < n, f i = g i) :
    (List.range n).map f = (List.range n).map g :=
  List.map_congr_left (fun i hi => h i (List.mem_range.mp hi))

theorem range_succ_map (n : ℕ) (f : ℕ → Bool) :
    (List.range (n + 1)).map f = f 0 :: (List.range n).map (fun i => f (i + 1)) := by
  rw [List.range_succ_eq_map, List.map_cons, List.map_map]
  rfl

/-- Within a span shorter than the window, pruning keeps everything
(layer A form of the filter). -/
theorem filterA_eq_self {W : ℤ} {now : ℤ} (w : List ℤ)
    (h : ∀ x ∈ w, now - x < W) :
    w.filter (fun x => now - W < x) = w := by
  refine List.filter_eq_self.mpr (fun x hx => ?_)
  have hh := h x hx
  show decide (now - W < x) = true
  rw [decide_eq_true_eq]
  omega

/-- Within a span shorter than the window, pruning keeps everything
(layer B form of the filter). -/
theorem filterB_eq_self {W : ℤ} {now : ℤ} (w : List ℤ)
    (h : ∀ x ∈ w, now - x < W) :
    w.filter (fun x => now - x < W) = w := by
  refine List.filter_eq_self.mpr (fun x hx => ?_)
  have hh := h x hx
  show decide (now - x < W) = true
  rw [decide_eq_true_eq]
  omega

/-- Behaviour of a run of layer-A checks for one subject whose stored
window is w and whose calls, together with w, are ordered and lie within
one window span: the i-th call is admitted iff w.length + i is under the
limit, and the stored window accumulates the admitted timestamps. -/
theorem runA_spec (st : RLSettings) (key ep : String) :
    ∀ (ts : List ℤ) (s : RateLimiterState) (w : List ℤ),
      lookupD s.requests (key ++ ":" ++ ep) [] = w →
      (w ++ ts).Pairwise (· ≤ ·) →
      (∀ x ∈ w ++ ts, ∀ t ∈ ts, x ≤ t → t - x < st.rateLimitWindow) →
      (runA st key ep ts s).2 =
        (List.range ts.length).map
          (fun i => decide (w.length + i < st.rateLimitRequests))
      ∧ lookupD (runA st key ep ts s).1.requests (key ++ ":" ++ ep) [] =
          w ++ ts.take (st.rateLimitRequests - w.length) := by
  intro ts
  induction ts with
  | nil =>
      intro s w hw _ _
      simpa [runA] using hw
  | cons t ts ih =>
      intro s w hw hsort hspan
      have hsub : (w ++ ts).Sublist (w ++ t :: ts) :=
        List.Sublist.append_left (List.sublist_cons_self t ts) w
      have hxle : ∀ x ∈ w, x ≤ t :=
        fun x hx => (List.pairwise_append.mp hsort).2.2 x hx t (by simp)
      have hwmem : ∀ x ∈ w, t - x < st.rateLimitWindow :=
        fun x hx => hspan x (List.mem_append_left _ hx) t (by simp) (hxle x hx)
      have hcheck : check_rate_limit st t key ep s =
          if st.rateLimitRequests ≤ w.length then
            (false, ⟨insertA s.requests (key ++ ":" ++ ep) w⟩)
          else
            (true, ⟨insertA s.requests (key ++ ":" ++ ep) (w ++ [t])⟩) := by
        simp only [check_rate_limit, hw, filterA_eq_self w hwmem]
      by_cases hcase : st.rateLimitRequests ≤ w.length
      · have hrest := ih ⟨insertA s.requests (key ++ ":" ++ ep) w⟩ w
          (lookupD_insertA_self _ _ _ _)
          (hsort.sublist hsub)
          (fun x hx u hu hle =>
            hspan x (hsub.mem hx) u (by simp [hu]) hle)
        constructor
        · show (runA st key ep (t :: ts) s).2 = _
          simp only [runA, hcheck, if_pos hcase, List.length_cons]
          rw [hrest.1, range_succ_map]
          congr 1
          · have hno : ¬ (w.length + 0 < st.rateLimitRequests) := by omega
            simp [hno]
            omega
          · exact (map_decide_congr (fun i _ => by
              have h1 : ¬ (w.length + i < st.rateLimitRequests) := by omega
              have h2 : ¬ (w.length + (i + 1) < st.rateLimitRequests) := by omega
              simp [h1, h2])).symm
        · show lookupD (runA st key ep (t :: ts) s).1.requests _ [] = _
          simp only [runA, hcheck, if_pos hcase]
          rw [hrest.2]
          have h0 : st.rateLimitRequests - w.length = 0 := Nat.sub_eq_zero_of_le hcase
          simp [h0]
      · have hsort' : ((w ++ [t]) ++ ts).Pairwise (· ≤ ·) := by
          rw [List.append_assoc]
          simpa using hsort
        have hspan' : ∀ x ∈ (w ++ [t]) ++ ts, ∀ u ∈ ts, x ≤ u →
            u - x < st.rateLimitWindow := by
          intro x hx u hu hle
          rw [List.append_assoc] at hx
          exact hspan x (by simpa using hx) u (by simp [hu]) hle
        have hrest := ih ⟨insertA s.requests (key ++ ":" ++ ep) (w ++ [t])⟩ (w ++ [t])
          (lookupD_insertA_self _ _ _ _) hsort' hspan'
        constructor
        · show (runA st key ep (t :: ts) s).2 = _
          simp only [runA, hcheck, if_neg hcase, List.length_cons]
          rw [hrest.1, range_succ_map]
          congr 1
          · have hyes : w.length + 0 < st.rateLimitRequests := by omega
            simp [hyes]
            omega
          · refine (map_decide_congr (fun i _ => ?_)).symm
            have he : (w.length + (i + 1) < st.rateLimitRequests) ↔
                ((w ++ [t]).length + i < st.rateLimitRequests) := by
              simp only [List.length_append, List.length_cons, List.length_nil]
              omega
            simp [he]
        · show lookupD (runA st key ep (t :: ts) s).1.requests _ [] = _
          simp only [runA, hcheck, if_neg hcase]
          rw [hrest.2]
          have hlt : w.length < st.rateLimitRequests := Nat.lt_of_not_le hcase
          have h1 : st.rateLimitRequests - w.length =
              (st.rateLimitRequests - (w.length + 1)) + 1 := by omega
          rw [h1, List.take_succ_cons]
          simp [List.append_assoc]



/-- Behaviour of a run of layer-B middleware checks for one (address, path)
whose stored window is w, from a state with no blocked addresses: same
counting behaviour as layer A, and no address ever gets blocked. -/
theorem runB_spec (cfg : MWConfig) (ip path : String) :
    ∀ (ts : List ℤ) (s : MWState) (w : List ℤ),
      s.blockedIps = [] →
      lookupD s.requests (ip ++ ":" ++ path) [] = w →
      1 ≤ (routeLimitWindow cfg path).1 →
      w.length ≤ (routeLimitWindow cfg path).1 →
      (w ++ ts).Pairwise (· ≤ ·) →
      (∀ x ∈ w ++ ts, ∀ t ∈ ts, x ≤ t → t - x < (routeLimitWindow cfg path).2) →
      (runB cfg ip path ts s).2 =
        (List.range ts.length).map
          (fun i => decide (w.length + i < (routeLimitWindow cfg path).1))
      ∧ lookupD (runB cfg ip path ts s).1.requests (ip ++ ":" ++ path) [] =
          w ++ ts.take ((routeLimitWindow cfg path).1 - w.length)
      ∧ (runB cfg ip path ts s).1.blockedIps = [] := by
  intro ts
  induction ts with
  | nil =>
      intro s w hbl hw _ _ _ _
      exact ⟨by simp [runB], by simpa [runB] using hw, by simpa [runB] using hbl⟩
  | cons t ts ih =>
      intro s w hbl hw hL1 hwL hsort hspan
      have hsub : (w ++ ts).Sublist (w ++ t :: ts) :=
        List.Sublist.append_left (List.sublist_cons_self t ts) w
      have hxle : ∀ x ∈ w, x ≤ t :=
        fun x hx => (List.pairwise_append.mp hsort).2.2 x hx t (by simp)
      have hwmem : ∀ x ∈ w, t - x < (routeLimitWindow cfg path).2 :=
        fun x hx => hspan x (List.mem_append_left _ hx) t (by simp) (hxle x hx)
      have hnb : isBlocked t ip s = (false, s) := by
        simp [isBlocked, hbl, lookupA]
      have h2L : ¬ (2 * (routeLimitWindow cfg path).1 ≤ w.length) := by omega
      have hcheck : mwCheckRateLimit cfg t ip path s =
          if (routeLimitWindow cfg path).1 ≤ w.length then (false, s)
          else (true, ⟨insertA s.requests (ip ++ ":" ++ path) (w ++ [t]), s.blockedIps⟩) := by
        simp only [mwCheckRateLimit, hnb, hw, filterB_eq_self w hwmem]
        by_cases hc : (routeLimitWindow cfg path).1 ≤ w.length
        · simp [hc, h2L]
        · simp [hc]
      by_cases hcase : (routeLimitWindow cfg path).1 ≤ w.length
      · have hrest := ih s w hbl hw hL1 hwL
          (hsort.sublist hsub)
          (fun x hx u hu hle => hspan x (hsub.mem hx) u (by simp [hu]) hle)
        refine ⟨?_, ?_, ?_⟩
        · show (runB cfg ip path (t :: ts) s).2 = _
          simp only [runB, hcheck, if_pos hcase, List.length_cons]
          rw [hrest.1, range_succ_map]
          congr 1
          · have hno : ¬ (w.length + 0 < (routeLimitWindow cfg path).1) := by omega
            simp [hno]
            omega
          · exact (map_decide_congr (fun i _ => by
              have h1 : ¬ (w.length + i < (routeLimitWindow cfg path).1) := by omega
              have h2 : ¬ (w.length + (i + 1) < (routeLimitWindow cfg path).1) := by omega
              simp [h1, h2])).symm
        · show lookupD (runB cfg ip path (t :: ts) s).1.requests _ [] = _
          simp only [runB, hcheck, if_pos hcase]
          rw [hrest.2.1]
          have h0 : (routeLimitWindow cfg path).1 - w.length = 0 :=
            Nat.sub_eq_zero_of_le hcase
          simp [h0]
        · show (runB cfg ip path (t :: ts) s).1.blockedIps = []
          simp only [runB, hcheck, if_pos hcase]
          exact hrest.2.2
      · have hsort' : ((w ++ [t]) ++ ts).Pairwise (· ≤ ·) := by
          rw [List.append_assoc]
          simpa using hsort
        have hspan' : ∀ x ∈ (w ++ [t]) ++ ts, ∀ u ∈ ts, x ≤ u →
            u - x < (routeLimitWindow cfg path).2 := by
          intro x hx u hu hle
          rw [List.append_assoc] at hx
          exact hspan x (by simpa using hx) u (by simp [hu]) hle
        have hwL' : (w ++ [t]).length ≤ (routeLimitWindow cfg path).1 := by
          simp only [List.length_append, List.length_cons, List.length_nil]
          omega
        have hrest := ih
          ⟨insertA s.requests (ip ++ ":" ++ path) (w ++ [t]), s.blockedIps⟩
          (w ++ [t]) hbl (lookupD_insertA_self _ _ _ _) hL1 hwL' hsort' hspan'
        refine ⟨?_, ?_, ?_⟩
        · show (runB cfg ip path (t :: ts) s).2 = _
          simp only [runB, hcheck, if_neg hcase, List.length_cons]
          rw [hrest.1, range_succ_map]
          congr 1
          · have hyes : w.length + 0 < (routeLimitWindow cfg path).1 := by omega
            simp [hyes]
            omega
          · refine (map_decide_congr (fun i _ => ?_)).symm
            have he : (w.length + (i + 1) < (routeLimitWindow cfg path).1) ↔
                ((w ++ [t]).length + i < (routeLimitWindow cfg path).1) := by
              simp only [List.length_append, List.length_cons, List.length_nil]
              omega
            simp [he]
        · show lookupD (runB cfg ip path (t :: ts) s).1.requests _ [] = _
          simp only [runB, hcheck, if_neg hcase]
          rw [hrest.2.1]
          have h1 : (routeLimitWindow cfg path).1 - w.length =
              ((routeLimitWindow cfg path).1 - (w.length + 1)) + 1 := by omega
          rw [h1, List.take_succ_cons]
          simp [List.append_assoc]
        · show (runB cfg ip path (t :: ts) s).1.blockedIps = []
          simp only [runB, hcheck, if_neg hcase]
          exact hrest.2.2

/-- The first n admission results of a fresh window are all true, and the
(n+1)-st is false. -/
theorem range_map_lt_succ (L : ℕ) :
    (List.range (L + 1)).map (fun i => decide (i < L)) =
      List.replicate L true ++ [false] := by
  rw [List.range_succ, List.map_append]
  congr 1
  · refine List.eq_replicate_iff.mpr ⟨by simp, ?_⟩
    intro b hb
    obtain ⟨i, hi, rfl⟩ := List.mem_map.mp hb
    simp [List.mem_range.mp hi]
  · simp

/-- Claim C3: for limit L and window W, from a fresh window, L + 1 ordered
checks within one window span admit the first L and reject the last, and
a later check after more than W of silence is admitted again; this holds
for the key-scoped limiter and, for an unblocked address, the
address-scoped middleware limiter. -/
theorem sliding_window_spec :
    (∀ (st : RLSettings) (key ep : String) (ts : List ℤ) (tr tq : ℤ),
       1 ≤ st.rateLimitRequests →
       ts.length = st.rateLimitRequests →
       (ts ++ [tr]).Pairwise (· ≤ ·) →
       (∀ x ∈ ts ++ [tr], tr - x < st.rateLimitWindow) →
       tr + st.rateLimitWindow < tq →
       (runA st key ep (ts ++ [tr]) ⟨[]⟩).2 =
         List.replicate st.rateLimitRequests true ++ [false]
       ∧ (check_rate_limit st tq key ep (runA st key ep (ts ++ [tr]) ⟨[]⟩).1).1 = true)
  ∧ (∀ (cfg : MWConfig) (ip path : String) (ts : List ℤ) (tr tq : ℤ),
       1 ≤ (routeLimitWindow cfg path).1 →
       ts.length = (routeLimitWindow cfg path).1 →
       (ts ++ [tr]).Pairwise (· ≤ ·) →
       (∀ x ∈ ts ++ [tr], tr - x < (routeLimitWindow cfg path).2) →
       tr + (routeLimitWindow cfg path).2 < tq →
       (runB cfg ip path (ts ++ [tr]) ⟨[], []⟩).2 =
         List.replicate (routeLimitWindow cfg path).1 true ++ [false]
       ∧ (mwCheckRateLimit cfg tq ip path (runB cfg ip path (ts ++ [tr]) ⟨[], []⟩).1).1 =
           true) := by
  constructor
  · intro st key ep ts tr tq hL1 hlen hsort hspan hgap
    have hle_tr : ∀ x ∈ ts ++ [tr], x ≤ tr := by
      intro x hx
      rcases List.mem_append.mp hx with h1 | h2
      · exact (List.pairwise_append.mp hsort).2.2 x h1 tr (by simp)
      · simp at h2
        omega
    have hrun := runA_spec st key ep (ts ++ [tr]) ⟨[]⟩ []
      (by simp [lookupD, lookupA]) (by simpa using hsort)
      (by
        intro x hx u hu hxu
        have h1 := hspan x (by simpa using hx)
        have h2 := hle_tr u hu
        omega)
    have hfin : lookupD (runA st key ep (ts ++ [tr]) ⟨[]⟩).1.requests
        (key ++ ":" ++ ep) [] = ts := by
      rw [hrun.2]
      simp only [List.length_nil, Nat.sub_zero, List.nil_append]
      rw [← hlen, List.take_left]
    constructor
    · rw [hrun.1]
      have hl : (ts ++ [tr]).length = st.rateLimitRequests + 1 := by simp [hlen]
      rw [hl]
      exact Eq.trans (map_decide_congr fun i _ => by simp)
        (range_map_lt_succ st.rateLimitRequests)
    · simp only [check_rate_limit, hfin]
      have hfilter : ts.filter (fun x => tq - st.rateLimitWindow < x) = [] := by
        refine List.filter_eq_nil_iff.mpr (fun x hx => ?_)
        have h1 := hle_tr x (List.mem_append_left _ hx)
        simp only [decide_eq_true_eq]
        omega
      rw [hfilter]
      have hz : ¬ (st.rateLimitRequests = 0) := by omega
      simp [hz]
  · intro cfg ip path ts tr tq hL1 hlen hsort hspan hgap
    have hle_tr : ∀ x ∈ ts ++ [tr], x ≤ tr := by
      intro x hx
      rcases List.mem_append.mp hx with h1 | h2
      · exact (List.pairwise_append.mp hsort).2.2 x h1 tr (by simp)
      · simp at h2
        omega
    have hrun := runB_spec cfg ip path (ts ++ [tr]) ⟨[], []⟩ [] rfl
      (by simp [lookupD, lookupA]) hL1 (by simp)
      (by simpa using hsort)
      (by
        intro x hx u hu hxu
        have h1 := hspan x (by simpa using hx)
        have h2 := hle_tr u hu
        omega)
    have hfin : lookupD (runB cfg ip path (ts ++ [tr]) ⟨[], []⟩).1.requests
        (ip ++ ":" ++ path) [] = ts := by
      rw [hrun.2.1]
      simp only [List.length_nil, Nat.sub_zero, List.nil_append]
      rw [← hlen, List.take_left]
    constructor
    · rw [hrun.1]
      have hl : (ts ++ [tr]).length = (routeLimitWindow cfg path).1 + 1 := by
        simp [hlen]
      rw [hl]
      exact Eq.trans (map_decide_congr fun i _ => by simp)
        (range_map_lt_succ (routeLimitWindow cfg path).1)
    · have hnb : isBlocked tq ip (runB cfg ip path (ts ++ [tr]) ⟨[], []⟩).1 =
          (false, (runB cfg ip path (ts ++ [tr]) ⟨[], []⟩).1) := by
        simp [isBlocked, hrun.2.2, lookupA]
      simp only [mwCheckRateLimit, hnb, hfin]
      have hfilter : ts.filter (fun x => tq - x < (routeLimitWindow cfg path).2) = [] := by
        refine List.filter_eq_nil_iff.mpr (fun x hx => ?_)
        have h1 := hle_tr x (List.mem_append_left _ hx)
        simp only [decide_eq_true_eq]
        omega
      rw [hfilter]
      have hz : ¬ ((routeLimitWindow cfg path).1 = 0) := by omega
      simp [hz]

/-- Witness for C3 with limit 2 / window 60 on layer A and the login route
(limit 5) on layer B. -/
theorem sliding_window_spec_witness :
    ((runA ⟨2, 60⟩ "k" "*" ([0, 1] ++ [2]) ⟨[]⟩).2 =
       List.replicate 2 true ++ [false]
     ∧ (check_rate_limit ⟨2, 60⟩ 100 "k" "*" (runA ⟨2, 60⟩ "k" "*" ([0, 1] ++ [2]) ⟨[]⟩).1).1 =
         true)
  ∧ ((runB ⟨100, 60⟩ "1.2.3.4" "/api/auth/login" ([0, 1, 2, 3, 4] ++ [5]) ⟨[], []⟩).2 =
       List.replicate (routeLimitWindow ⟨100, 60⟩ "/api/auth/login").1 true ++ [false]
     ∧ (mwCheckRateLimit ⟨100, 60⟩ 100 "1.2.3.4" "/api/auth/login"
         (runB ⟨100, 60⟩ "1.2.3.4" "/api/auth/login" ([0, 1, 2, 3, 4] ++ [5]) ⟨[], []⟩).1).1 =
         true) :=
  ⟨sliding_window_spec.1 ⟨2, 60⟩ "k" "*" [0, 1] 2 100
     (by decide) (by decide) (by decide) (by decide) (by decide),
   sliding_window_spec.2 ⟨100, 60⟩ "1.2.3.4" "/api/auth/login" [0, 1, 2, 3, 4] 5 100
     (by decide) (by decide) (by decide) (by decide) (by decide)⟩

set_option maxRecDepth 10000 in
/-- Claim C1 (evidence): 201 calls from one address within one window of a
route limited to 100 per 60 s are admitted 100 times and rejected 101
times, and no block is ever recorded — the 2x-limit escalation branch
cannot fire because rejected requests are never appended to the window,
so the pruned count never exceeds the limit. -/
theorem escalation_scenario_never_blocks :
    (runB ⟨100, 60⟩ "203.0.113.9" "/foo" (List.replicate 201 0) ⟨[], []⟩).2 =
      List.replicate 100 true ++ List.replicate 101 false
  ∧ (runB ⟨100, 60⟩ "203.0.113.9" "/foo" (List.replicate 201 0) ⟨[], []⟩).1.blockedIps =
      [] :=
  ⟨by decide, by decide⟩

/-! ## Window-bound invariant and key aliasing (claim C10) -/

/-- One middleware check either leaves the windows untouched (and rejects)
or stores pruned ++ [now] under its own key after admitting, with the
pruned list strictly under the route limit. -/
theorem mwCheck_requests_cases (cfg : MWConfig) (now : ℤ) (ip0 path0 : String)
    (s : MWState) :
    ((mwCheckRateLimit cfg now ip0 path0 s).1 = false ∧
       (mwCheckRateLimit cfg now ip0 path0 s).2.requests = s.requests)
  ∨ ((mwCheckRateLimit cfg now ip0 path0 s).1 = true ∧
      ∃ pruned : List ℤ, pruned.length < (routeLimitWindow cfg path0).1 ∧
       (mwCheckRateLimit cfg now ip0 path0 s).2.requests =
         insertA s.requests (ip0 ++ ":" ++ path0) (pruned ++ [now])) := by
  have hbreq : (isBlocked now ip0 s).2.requests = s.requests := by
    unfold isBlocked
    cases h : lookupA s.blockedIps ip0 with
    | none => rfl
    | some bu =>
        by_cases hlt : now < bu
        · simp [hlt]
        · simp [hlt]
  unfold mwCheckRateLimit
  cases hbv : (isBlocked now ip0 s).1
  · simp only [hbv, Bool.false_eq_true, if_false]
    set s1 := (isBlocked now ip0 s).2 with hs1
    set pruned := (lookupD s1.requests (ip0 ++ ":" ++ path0) []).filter
      (fun t => now - t < (routeLimitWindow cfg path0).2) with hpr
    by_cases hc : (routeLimitWindow cfg path0).1 ≤ pruned.length
    · left
      refine ⟨?_, ?_⟩
      · by_cases h2 : 2 * (routeLimitWindow cfg path0).1 ≤ pruned.length
        · simp [hc, h2]
        · simp [hc, h2]
      · by_cases h2 : 2 * (routeLimitWindow cfg path0).1 ≤ pruned.length
        · simp [hc, h2, block_ip, hbreq]
        · simp [hc, h2, hbreq]
    · right
      refine ⟨by simp [hc], pruned, by omega, ?_⟩
      simp [hc, hbreq]
  · left
    simp [hbv, hbreq]

/-- Splitting at a separator absent from both prefixes is unambiguous. -/
theorem colon_split_inj :
    ∀ (a b a2 b2 : List Char), (':' : Char) ∉ a → (':' : Char) ∉ a2 →
      a ++ ':' :: b = a2 ++ ':' :: b2 → a = a2 ∧ b = b2 := by
  intro a
  induction a with
  | nil =>
      intro b a2 b2 _ ha2 h
      cases a2 with
      | nil => simpa using h
      | cons c t =>
          simp only [List.nil_append, List.cons_append, List.cons.injEq] at h
          rw [← h.1] at ha2
          simp at ha2
  | cons c t ih =>
      intro b a2 b2 ha ha2 h
      cases a2 with
      | nil =>
          simp only [List.nil_append, List.cons_append, List.cons.injEq] at h
          rw [h.1] at ha
          simp at ha
      | cons c2 t2 =>
          simp only [List.cons_append, List.cons.injEq] at h
          obtain ⟨e1, e2⟩ := ih b t2 b2 (fun hm => ha (by simp [hm]))
            (fun hm => ha2 (by simp [hm])) h.2
          exact ⟨by rw [h.1, e1], e2⟩

/-- For colon-free addresses the joined map key determines the
(address, path) pair. -/
theorem key_decomp_inj (ip path ip2 path2 : String)
    (h1 : (':' : Char) ∉ ip.data) (h2 : (':' : Char) ∉ ip2.data)
    (h : ip ++ ":" ++ path = ip2 ++ ":" ++ path2) : ip = ip2 ∧ path = path2 := by
  have hd := congrArg String.data h
  simp only [String.data_append] at hd
  rw [List.append_assoc, List.append_assoc] at hd
  obtain ⟨e1, e2⟩ := colon_split_inj ip.data path.data ip2.data path2.data h1 h2
    (by simpa using hd)
  exact ⟨String.ext e1, String.ext e2⟩

/-- The per-key length bound is preserved by one middleware check whose
request address is colon-free. -/
theorem mw_inv_step (cfg : MWConfig) (now : ℤ) (ip0 path0 : String) (s : MWState)
    (hip0 : (':' : Char) ∉ ip0.data)
    (hinv : ∀ ip path : String, (':' : Char) ∉ ip.data →
      (lookupD s.requests (ip ++ ":" ++ path) []).length ≤ (routeLimitWindow cfg path).1) :
    ∀ ip path : String, (':' : Char) ∉ ip.data →
      (lookupD (mwCheckRateLimit cfg now ip0 path0 s).2.requests
          (ip ++ ":" ++ path) []).length ≤ (routeLimitWindow cfg path).1 := by
  intro ip path hip
  rcases mwCheck_requests_cases cfg now ip0 path0 s with ⟨_, hreq⟩ | ⟨_, pruned, hlen, hreq⟩
  · rw [hreq]
    exact hinv ip path hip
  · rw [hreq]
    by_cases hk : ip0 ++ ":" ++ path0 = ip ++ ":" ++ path
    · obtain ⟨hi, hp⟩ := key_decomp_inj ip0 path0 ip path hip0 hip hk
      simp only [lookupD, lookupA_insertA, if_pos hk, Option.getD_some]
      rw [← hp]
      simp only [List.length_append, List.length_cons, List.length_nil]
      omega
    · simp only [lookupD, lookupA_insertA, if_neg hk]
      exact hinv ip path hip

/-- The per-key length bound holds for every state reached by a trace of
colon-free-address requests from the empty state. -/
theorem mw_run_inv (cfg : MWConfig) :
    ∀ (trace : List (String × String × ℤ)) (s : MWState),
      (∀ r ∈ trace, (':' : Char) ∉ r.1.data) →
      (∀ ip path : String, (':' : Char) ∉ ip.data →
        (lookupD s.requests (ip ++ ":" ++ path) []).length ≤ (routeLimitWindow cfg path).1) →
      ∀ ip path : String, (':' : Char) ∉ ip.data →
        (lookupD (runBReq cfg trace s).requests (ip ++ ":" ++ path) []).length ≤
          (routeLimitWindow cfg path).1 := by
  intro trace
  induction trace with
  | nil =>
      intro s _ hinv
      simpa [runBReq] using hinv
  | cons r rest ih =>
      intro s htrace hinv
      obtain ⟨rip, rpath, rt⟩ := r
      show ∀ ip path : String, (':' : Char) ∉ ip.data →
        (lookupD (runBReq cfg rest (mwCheckRateLimit cfg rt rip rpath s).2).requests
            (ip ++ ":" ++ path) []).length ≤ (routeLimitWindow cfg path).1
      exact ih (mwCheckRateLimit cfg rt rip rpath s).2
        (fun x hx => htrace x (by simp [hx]))
        (mw_inv_step cfg rt rip rpath s (by simpa using htrace (rip, rpath, rt) (by simp))
          hinv)

/-- Claim C10 (counterexample to the unrestricted bound): the joined string
key aliases distinct (address, path) pairs.  Six admitted requests with
address "203.0.113.7" and path "/x:/api/auth/login" (default route, limit
100) leave six timestamps under the very key that belongs to address
"203.0.113.7:/x" and path "/api/auth/login", whose route limit is 5. -/
theorem mw_window_alias_counterexample :
    ¬ ((lookupD (runBReq ⟨100, 60⟩
          (List.replicate 6 ("203.0.113.7", "/x:/api/auth/login", (0 : ℤ))) ⟨[], []⟩).requests
          ("203.0.113.7:/x" ++ ":" ++ "/api/auth/login") []).length ≤
        (routeLimitWindow ⟨100, 60⟩ "/api/auth/login").1) := by decide

/-- Claim C10 (amended): a rejected request never changes the stored
windows, and in runs where every request address is colon-free (so the
joined key cannot alias two pairs) each (address, path) window holds at
most its route's limit of timestamps. -/
theorem mw_window_bound :
    (∀ (cfg : MWConfig) (now : ℤ) (ip path : String) (s : MWState),
       (mwCheckRateLimit cfg now ip path s).1 = false →
       ((mwCheckRateLimit cfg now ip path s).2).requests = s.requests)
  ∧ (∀ (cfg : MWConfig) (trace : List (String × String × ℤ)),
       (∀ r ∈ trace, (':' : Char) ∉ r.1.data) →
       ∀ (ip path : String), (':' : Char) ∉ ip.data →
       (lookupD (runBReq cfg trace ⟨[], []⟩).requests (ip ++ ":" ++ path) []).length ≤
         (routeLimitWindow cfg path).1) := by
  constructor
  · intro cfg now ip path s hrej
    rcases mwCheck_requests_cases cfg now ip path s with ⟨_, hreq⟩ | ⟨htrue, _⟩
    · exact hreq
    · rw [htrue] at hrej
      exact Bool.noConfusion hrej
  · intro cfg trace htrace ip path hip
    exact mw_run_inv cfg trace ⟨[], []⟩ htrace
      (fun _ _ _ => by simp [lookupD, lookupA]) ip path hip

/-- Witness for C10 on a concrete colon-free trace. -/
theorem mw_window_bound_witness :
    (lookupD (runBReq ⟨100, 60⟩ [("1.2.3.4", "/api/tenants/x", (0 : ℤ))] ⟨[], []⟩).requests
        ("1.2.3.4" ++ ":" ++ "/api/tenants/x") []).length ≤
      (routeLimitWindow ⟨100, 60⟩ "/api/tenants/x").1 :=
  mw_window_bound.2 ⟨100, 60⟩ [("1.2.3.4", "/api/tenants/x", (0 : ℤ))]
    (by decide) "1.2.3.4" "/api/tenants/x" (by decide)

/-! ## Digest and token format lemmas -/

theorem beBytes_length : ∀ (n v : ℕ), (beBytes n v).length = n := by
  intro n
  induction n with
  | zero => intro v; rfl
  | succ n ih => intro v; simp [beBytes, ih]

theorem hash8Bytes_length (h : Hash8) : (hash8Bytes h).length = 32 := by
  simp [hash8Bytes, beBytes_length]

theorem hexOfBytes_length (bs : List ℕ) : (hexOfBytes bs).length = 2 * bs.length := by
  induction bs with
  | nil => rfl
  | cons b rest ih =>
      simp only [hexOfBytes, List.flatMap_cons] at *
      simp [ih]
      omega

/-- Every hex digest rendered by sha256Hex has exactly 64 characters. -/
theorem sha256Hex_length (s : String) : (sha256Hex s).data.length = 64 := by
  show (hexOfBytes (sha256Bytes (utf8Bytes s.data))).length = 64
  rw [hexOfBytes_length]
  simp [sha256Bytes, hash8Bytes_length]

/-- The digest of a key never equals a key whose length is not 64. -/
theorem sha256Hex_ne (t : String) (h : t.data.length ≠ 64) : sha256Hex t ≠ t := by
  intro he
  exact h (by rw [← he, sha256Hex_length])

theorem b64urlEncode_length :
    ∀ (l : List ℕ), (b64urlEncode l).length = (4 * l.length + 2) / 3 := by
  have main : ∀ (n : ℕ) (l : List ℕ), l.length ≤ n →
      (b64urlEncode l).length = (4 * l.length + 2) / 3 := by
    intro n
    induction n with
    | zero =>
        intro l hl
        have : l = [] := List.length_eq_zero.mp (Nat.le_zero.mp hl)
        subst this
        rfl
    | succ n ih =>
        intro l hl
        rcases l with _ | ⟨a, _ | ⟨b, _ | ⟨c, rest⟩⟩⟩
        · simp [b64urlEncode]
        · simp [b64urlEncode]
        · simp [b64urlEncode]
        · simp only [b64urlEncode, List.length_cons]
          rw [ih rest (by simp at hl; omega)]
          omega
  exact fun l => main l.length l (le_refl _)

/-- The 43-character URL-safe token of 32 entropy bytes. -/
theorem token_urlsafe_length (bytes : List ℕ) (h : bytes.length = 32) :
    (token_urlsafe bytes).data.length = 43 := by
  show (b64urlEncode bytes).length = 43
  rw [b64urlEncode_length, h]

theorem b64Val_b64Char : ∀ k < 64, b64Val (b64Char k) = k := by decide

theorem b64Char_mem (k : ℕ) : b64Char k ∈ b64Alphabet := by
  by_cases h : k < 64
  · revert h
    revert k
    decide
  · unfold b64Char
    rw [List.getD_eq_default]
    · decide
    · simp only [Nat.not_lt] at h
      calc b64Alphabet.length = 64 := by decide
        _ ≤ k := h

/-- Decoding inverts encoding on byte lists, so distinct 32-byte entropy
inputs yield distinct tokens (the encoding preserves all 256 bits). -/
theorem b64urlDecode_encode :
    ∀ (l : List ℕ), (∀ x ∈ l, x < 256) → b64urlDecode (b64urlEncode l) = l := by
  have main : ∀ (n : ℕ) (l : List ℕ), l.length ≤ n → (∀ x ∈ l, x < 256) →
      b64urlDecode (b64urlEncode l) = l := by
    intro n
    induction n with
    | zero =>
        intro l hl _
        have : l = [] := List.length_eq_zero.mp (Nat.le_zero.mp hl)
        subst this
        rfl
    | succ n ih =>
        intro l hl hb
        rcases l with _ | ⟨a, _ | ⟨b, _ | ⟨c, rest⟩⟩⟩
        · rfl
        · have ha : a < 256 := hb a (by simp)
          simp only [b64urlEncode, b64urlDecode]
          rw [b64Val_b64Char _ (by omega), b64Val_b64Char _ (by omega)]
          congr 1
          omega
        · have ha : a < 256 := hb a (by simp)
          have hbb : b < 256 := hb b (by simp)
          simp only [b64urlEncode, b64urlDecode]
          rw [b64Val_b64Char _ (by omega), b64Val_b64Char _ (by omega),
              b64Val_b64Char _ (by omega)]
          congr 1
          · omega
          · congr 1
            omega
        · have ha : a < 256 := hb a (by simp)
          have hbb : b < 256 := hb b (by simp)
          have hc : c < 256 := hb c (by simp)
          simp only [b64urlEncode, b64urlDecode]
          rw [b64Val_b64Char _ (by omega), b64Val_b64Char _ (by omega),
              b64Val_b64Char _ (by omega), b64Val_b64Char _ (by omega)]
          rw [ih rest (by simp at hl; omega) (fun x hx => hb x (by simp [hx]))]
          congr 1
          · omega
          · congr 1
            · omega
            · congr 1
              omega
  exact fun l => main l.length l (le_refl _)

/-- Every character of an encoded token is in the URL-safe alphabet. -/
theorem b64urlEncode_mem :
    ∀ (l : List ℕ) (c : Char), c ∈ b64urlEncode l → c ∈ b64Alphabet := by
  have main : ∀ (n : ℕ) (l : List ℕ), l.length ≤ n → ∀ c ∈ b64urlEncode l,
      c ∈ b64Alphabet := by
    intro n
    induction n with
    | zero =>
        intro l hl c hc
        have : l = [] := List.length_eq_zero.mp (Nat.le_zero.mp hl)
        subst this
        simp [b64urlEncode] at hc
    | succ n ih =>
        intro l hl c hc
        rcases l with _ | ⟨a, _ | ⟨b, _ | ⟨d, rest⟩⟩⟩
        · simp [b64urlEncode] at hc
        · simp only [b64urlEncode, List.mem_cons, List.mem_singleton,
            List.not_mem_nil, or_false] at hc
          rcases hc with h | h
          · rw [h]; exact b64Char_mem _
          · rw [h]; exact b64Char_mem _
        · simp only [b64urlEncode, List.mem_cons, List.mem_singleton,
            List.not_mem_nil, or_false] at hc
          rcases hc with h | h | h
          · rw [h]; exact b64Char_mem _
          · rw [h]; exact b64Char_mem _
          · rw [h]; exact b64Char_mem _
        · simp only [b64urlEncode, List.mem_cons] at hc
          rcases hc with h | h | h | h | h
          · rw [h]; exact b64Char_mem _
          · rw [h]; exact b64Char_mem _
          · rw [h]; exact b64Char_mem _
          · rw [h]; exact b64Char_mem _
          · exact ih rest (by simp at hl; omega) c h
  exact fun l c hc => main l.length l (le_refl _) c hc

/-! ## Credential store lemmas -/

theorem log_failed_attempt_fields (ip reason : String) (now : ℤ) (s : ManagerState) :
    (log_failed_attempt ip reason now s).1.keys = s.keys
  ∧ (log_failed_attempt ip reason now s).1.keyFile = s.keyFile
  ∧ (log_failed_attempt ip reason now s).1.lastLoadTime = s.lastLoadTime := by
  simp only [log_failed_attempt]
  split
  · exact ⟨rfl, rfl, rfl⟩
  · exact ⟨rfl, rfl, rfl⟩

theorem reloadIfNeeded_keyFile (now : ℤ) (s : ManagerState) :
    (reloadIfNeeded now s).keyFile = s.keyFile := by
  unfold reloadIfNeeded load_keys
  split
  · rfl
  · rfl

theorem reloadIfNeeded_keys (now : ℤ) (s : ManagerState) :
    (reloadIfNeeded now s).keys = s.keys ∨ (reloadIfNeeded now s).keys = s.keyFile := by
  unfold reloadIfNeeded load_keys
  split
  · exact Or.inr rfl
  · exact Or.inl rfl

/-- validate_key on a present digest with no reload pending: returns the
record bumped by one and stores it back. -/
theorem validate_key_hit (key ip : String) (now : ℤ) (s : ManagerState)
    (r : KeyRecord) (hne : key ≠ "") (httl : shouldReload now s = false)
    (hlook : lookupA s.keys (sha256Hex key) = some r) :
    (validate_key key ip now s).1 =
      some { r with lastUsed := some now, requestCount := r.requestCount + 1 }
  ∧ lookupA (validate_key key ip now s).2.1.keys (sha256Hex key) =
      some { r with lastUsed := some now, requestCount := r.requestCount + 1 }
  ∧ (validate_key key ip now s).2.2 =
      [SecEvent.authSuccess ip r.name (r.requestCount + 1)] := by
  have hreload : reloadIfNeeded now s = s := by
    unfold reloadIfNeeded
    rw [httl]
    simp
  simp only [validate_key, if_neg hne, hreload, hlook]
  refine ⟨trivial, ?_, trivial⟩
  rw [lookupA_insertA]
  simp

/-- Claim C5: validate_key right after generate_key returns the fresh
record with requestCount 1; each validate_key on a stored digest bumps
the count by exactly one; the stored digest (64 hex chars) never equals
the raw token (43 url-safe chars); and the token encoding of the 32
entropy bytes (256 bits) is injective with all characters in the
URL-safe alphabet, so only the digest, never the raw key, is stored. -/
theorem issue_validate_spec :
    (∀ (bytes : List ℕ) (nm : String) (perms : List String) (ip : String)
       (tg tv : ℤ) (s : ManagerState),
       bytes.length = 32 →
       (validate_key (token_urlsafe bytes) ip tv
           (generate_key (token_urlsafe bytes) nm perms tg s).2).1 =
         some ⟨nm, if perms.isEmpty then ["*"] else perms, tg, some tv, 1⟩
       ∧ sha256Hex (generate_key (token_urlsafe bytes) nm perms tg s).1 ≠
           (generate_key (token_urlsafe bytes) nm perms tg s).1)
  ∧ (∀ (key ip : String) (now : ℤ) (s : ManagerState) (r : KeyRecord),
       key ≠ "" → shouldReload now s = false →
       lookupA s.keys (sha256Hex key) = some r →
       (validate_key key ip now s).1 =
         some { r with lastUsed := some now, requestCount := r.requestCount + 1 }
       ∧ lookupA (validate_key key ip now s).2.1.keys (sha256Hex key) =
           some { r with lastUsed := some now, requestCount := r.requestCount + 1 })
  ∧ (∀ (b1 b2 : List ℕ), (∀ x ∈ b1, x < 256) → (∀ x ∈ b2, x < 256) →
       token_urlsafe b1 = token_urlsafe b2 → b1 = b2)
  ∧ (∀ (bytes : List ℕ), bytes.length = 32 → (token_urlsafe bytes).data.length = 43)
  ∧ (∀ (bytes : List ℕ) (c : Char), c ∈ (token_urlsafe bytes).data → c ∈ b64Alphabet) := by
  refine ⟨?_, ?_, ?_, token_urlsafe_length, fun bytes c hc => b64urlEncode_mem bytes c hc⟩
  · intro bytes nm perms ip tg tv s hlen
    have htok : (token_urlsafe bytes).data.length = 43 := token_urlsafe_length bytes hlen
    have htne : token_urlsafe bytes ≠ "" := by
      intro h
      rw [h] at htok
      simp at htok
    have hkeys : ∀ s2 : ManagerState,
        s2.keys = (generate_key (token_urlsafe bytes) nm perms tg s).2.keys →
        s2.keys = insertA s.keys (sha256Hex (token_urlsafe bytes))
          ⟨nm, if perms.isEmpty then ["*"] else perms, tg, none, 0⟩ :=
      fun s2 h => h
    have hre := reloadIfNeeded_keys tv (generate_key (token_urlsafe bytes) nm perms tg s).2
    have hrekeys : (reloadIfNeeded tv (generate_key (token_urlsafe bytes) nm perms tg s).2).keys =
        insertA s.keys (sha256Hex (token_urlsafe bytes))
          ⟨nm, if perms.isEmpty then ["*"] else perms, tg, none, 0⟩ := by
      rcases hre with h | h
      · exact h
      · exact h
    constructor
    · simp only [validate_key, if_neg htne, hrekeys, lookupA_insertA, if_pos rfl]
      rfl
    · have hfst : (generate_key (token_urlsafe bytes) nm perms tg s).1 =
          token_urlsafe bytes := rfl
      rw [hfst]
      exact sha256Hex_ne _ (by rw [htok]; omega)
  · intro key ip now s r hne httl hlook
    exact ⟨(validate_key_hit key ip now s r hne httl hlook).1,
           (validate_key_hit key ip now s r hne httl hlook).2.1⟩
  · intro b1 b2 h1 h2 he
    have hd : b64urlEncode b1 = b64urlEncode b2 := congrArg String.data he
    calc b1 = b64urlDecode (b64urlEncode b1) := (b64urlDecode_encode b1 h1).symm
      _ = b64urlDecode (b64urlEncode b2) := by rw [hd]
      _ = b2 := b64urlDecode_encode b2 h2

/-- Witness for C5 with the all-zero 32-byte entropy input and a one-key
store. -/
theorem issue_validate_spec_witness :
    ((validate_key (token_urlsafe (List.replicate 32 0)) "10.0.0.1" 1
        (generate_key (token_urlsafe (List.replicate 32 0)) "svc" [] 0 emptyMgr).2).1 =
      some ⟨"svc", ["*"], 0, some 1, 1⟩
     ∧ sha256Hex (generate_key (token_urlsafe (List.replicate 32 0)) "svc" [] 0 emptyMgr).1 ≠
         (generate_key (token_urlsafe (List.replicate 32 0)) "svc" [] 0 emptyMgr).1)
  ∧ ((validate_key "k" "10.0.0.1" 1
        ⟨[(sha256Hex "k", ⟨"n", ["*"], 0, none, 7⟩)], [], 0, []⟩).1 =
      some ⟨"n", ["*"], 0, some 1, 8⟩)
  ∧ (token_urlsafe (List.replicate 32 0)).data.length = 43 :=
  ⟨by
     have h := (issue_validate_spec.1 (List.replicate 32 0) "svc" [] "10.0.0.1" 0 1
       emptyMgr (by decide))
     simpa using h,
   by
     have h := (issue_validate_spec.2.1 "k" "10.0.0.1" 1
       ⟨[(sha256Hex "k", ⟨"n", ["*"], 0, none, 7⟩)], [], 0, []⟩ ⟨"n", ["*"], 0, none, 7⟩
       (by decide) (by decide) (by simp [lookupA])).1
     simpa using h,
   issue_validate_spec.2.2.2.1 (List.replicate 32 0) (by decide)⟩

/-! ## Claim C2: requestCount monotonicity -/

set_option maxRecDepth 10000 in
/-- Claim C2 (counterexample): successful validations are not persisted, so
a TTL-triggered reload restores the last saved requestCount.  Issue a key
at t = 0, validate at t = 1 and t = 2 (observed counts 1 then 2), then
validate at t = 40 (40 - 0 > 30 forces a reload from the file, which
still has count 0): the observed count drops back to 1. -/
theorem requestCount_decreases_on_reload :
    (let s1 := (generate_key "tok" "svc" [] 0 emptyMgr).2
     let r1 := validate_key "tok" "10.0.0.1" 1 s1
     let r2 := validate_key "tok" "10.0.0.1" 2 r1.2.1
     let r3 := validate_key "tok" "10.0.0.1" 40 r2.2.1
     (r2.1.map (fun k => k.requestCount), r3.1.map (fun k => k.requestCount))) =
    (some 2, some 1) := by decide

/-- Claim C2 (amended): requestCount never decreases across validate_key
(within the cache TTL), generate_key with a fresh digest, revoke_key and
save_keys; only a TTL-triggered reload (load_keys) can lower it, to the
last persisted value, because validations do not persist. -/
theorem requestCount_monotone_step :
    ∀ (s : ManagerState) (op : MgrOp),
      DKeys s.keys →
      (∀ key ip now, op = MgrOp.validate key ip now → shouldReload now s = false) →
      (∀ token nm perms now, op = MgrOp.genkey token nm perms now →
         lookupA s.keys (sha256Hex token) = none) →
      (∀ now, op ≠ MgrOp.load now) →
      ∀ (d : String) (r r' : KeyRecord), lookupA s.keys d = some r →
        lookupA (applyOp s op).keys d = some r' →
        r.requestCount ≤ r'.requestCount := by
  have heq : ∀ {a b : KeyRecord}, some a = some b → a.requestCount ≤ b.requestCount := by
    intro a b h
    injection h with h
    rw [h]
  intro s op hdk hval hgen hload d r r' hr hr'
  cases op with
  | validate key ip now =>
      have httl := hval key ip now rfl
      by_cases hkey : key = ""
      · simp only [applyOp, validate_key, if_pos hkey,
          (log_failed_attempt_fields ip "empty_key" now s).1] at hr'
        exact heq (hr.symm.trans hr')
      · have hreload : reloadIfNeeded now s = s := by
          unfold reloadIfNeeded
          rw [httl]
          simp
        simp only [applyOp, validate_key, if_neg hkey, hreload] at hr'
        cases hlook : lookupA s.keys (sha256Hex key) with
        | some rec0 =>
            rw [hlook] at hr'
            simp only at hr'
            rw [lookupA_insertA] at hr'
            by_cases hd : sha256Hex key = d
            · rw [if_pos hd] at hr'
              have hr0 : lookupA s.keys d = some rec0 := hd ▸ hlook
              have hre : r = rec0 := Option.some.inj (hr.symm.trans hr0)
              have h3 := Option.some.inj hr'
              rw [hre, ← h3]
              simp
            · rw [if_neg hd] at hr'
              exact heq (hr.symm.trans hr')
        | none =>
            rw [hlook] at hr'
            simp only [(log_failed_attempt_fields ip "invalid_key" now s).1] at hr'
            exact heq (hr.symm.trans hr')
  | genkey token nm perms now =>
      have hfresh := hgen token nm perms now rfl
      simp only [applyOp, generate_key, save_keys] at hr'
      rw [lookupA_insertA] at hr'
      by_cases hd : sha256Hex token = d
      · rw [← hd, hfresh] at hr
        exact Option.noConfusion hr
      · rw [if_neg hd] at hr'
        exact heq (hr.symm.trans hr')
  | revoke key =>
      simp only [applyOp, revoke_key] at hr'
      cases hlook : lookupA s.keys (sha256Hex key) with
      | some rec0 =>
          rw [hlook] at hr'
          simp only [save_keys] at hr'
          by_cases hd : sha256Hex key = d
          · rw [hd, lookupA_eraseA_self _ _ hdk] at hr'
            exact Option.noConfusion hr'
          · rw [lookupA_eraseA_ne _ _ _ hd] at hr'
            exact heq (hr.symm.trans hr')
      | none =>
          rw [hlook] at hr'
          exact heq (hr.symm.trans hr')
  | save =>
      simp only [applyOp, save_keys] at hr'
      exact heq (hr.symm.trans hr')
  | load now => exact absurd rfl (hload now)

set_option maxRecDepth 10000 in
/-- Witness for the amended C2: a validation within the TTL bumps the
stored count from 3 to 4, and the theorem yields 3 ≤ 4. -/
theorem requestCount_monotone_step_witness :
    (⟨"n", ["*"], 0, none, 3⟩ : KeyRecord).requestCount ≤
      (⟨"n", ["*"], 0, some 1, 4⟩ : KeyRecord).requestCount :=
  requestCount_monotone_step
    ⟨[(sha256Hex "k", ⟨"n", ["*"], 0, none, 3⟩)], [], 0, []⟩
    (MgrOp.validate "k" "10.0.0.1" 1)
    (by simp [DKeys])
    (fun key ip now h => by
      injection h with h1 h2 h3
      rw [← h3]
      decide)
    (fun token nm perms now h => MgrOp.noConfusion h)
    (fun now h => MgrOp.noConfusion h)
    (sha256Hex "k") ⟨"n", ["*"], 0, none, 3⟩ ⟨"n", ["*"], 0, some 1, 4⟩
    (by simp [lookupA])
    ((validate_key_hit "k" "10.0.0.1" 1
      ⟨[(sha256Hex "k", ⟨"n", ["*"], 0, none, 3⟩)], [], 0, []⟩
      ⟨"n", ["*"], 0, none, 3⟩ (by decide) (by decide) (by simp [lookupA])).2.1)

/-! ## Claim C4: failed-attempt window and abuse event -/

set_option maxRecDepth 10000 in
/-- Claim C4: each rejected validation appends one failure entry and prunes
the address's window to the 300 s horizon; the auth_failure event carries
the pruned count, and when that count reaches 5 an auth_abuse event with
failure_count 5 is also emitted; in particular five wrong-key
validations from 203.0.113.9 within 300 s emit auth_abuse with
failure_count 5 alongside the fifth auth_failure. -/
theorem failed_attempt_spec :
    (∀ (s : ManagerState) (ip reason : String) (now : ℤ),
       lookupD (log_failed_attempt ip reason now s).1.failedAttempts ip [] =
         (lookupD s.failedAttempts ip [] ++ [now]).filter (fun t => now - t < 300)
     ∧ SecEvent.authFailure ip reason
         ((lookupD s.failedAttempts ip [] ++ [now]).filter (fun t => now - t < 300)).length
         ∈ (log_failed_attempt ip reason now s).2
     ∧ (((lookupD s.failedAttempts ip [] ++ [now]).filter
           (fun t => now - t < 300)).length = 5 →
          SecEvent.authAbuse ip "multiple_failed_attempts" 5 ∈
            (log_failed_attempt ip reason now s).2))
  ∧ ((let s1 := (generate_key "tok" "svc" [] 0 emptyMgr).2
      let v1 := validate_key "wrong-key" "203.0.113.9" 1 s1
      let v2 := validate_key "wrong-key" "203.0.113.9" 2 v1.2.1
      let v3 := validate_key "wrong-key" "203.0.113.9" 3 v2.2.1
      let v4 := validate_key "wrong-key" "203.0.113.9" 4 v3.2.1
      let v5 := validate_key "wrong-key" "203.0.113.9" 5 v4.2.1
      v5.2.2) =
     [SecEvent.authFailure "203.0.113.9" "invalid_key" 5,
      SecEvent.authAbuse "203.0.113.9" "multiple_failed_attempts" 5]) := by
  constructor
  · intro s ip reason now
    simp only [log_failed_attempt]
    by_cases h5 : 5 ≤ ((lookupD s.failedAttempts ip [] ++ [now]).filter
        (fun t => now - t < 300)).length
    · rw [if_pos h5]
      refine ⟨lookupD_insertA_self _ _ _ _, by simp, fun h => ?_⟩
      rw [h]
      simp
    · rw [if_neg h5]
      exact ⟨lookupD_insertA_self _ _ _ _, by simp, fun h => absurd (by omega) h5⟩
  · decide

/-- Witness for C4 with four prior failures and a fifth at t = 5. -/
theorem failed_attempt_spec_witness :
    SecEvent.authAbuse "203.0.113.9" "multiple_failed_attempts" 5 ∈
      (log_failed_attempt "203.0.113.9" "invalid_key" 5
        ⟨[], [], 0, [("203.0.113.9", [1, 2, 3, 4])]⟩).2 :=
  (failed_attempt_spec.1 ⟨[], [], 0, [("203.0.113.9", [1, 2, 3, 4])]⟩
    "203.0.113.9" "invalid_key" 5).2.2 (by decide)

/-! ## Claim C6: revocation -/

/-- A digest is absent from both the in-memory store and the backing file. -/
def NoKey (d : String) (s : ManagerState) : Prop :=
  lookupA s.keys d = none ∧ lookupA s.keyFile d = none

theorem noKey_applyOp (d : String) (s : ManagerState) (op : MgrOp)
    (hop : ∀ token nm perms now, op = MgrOp.genkey token nm perms now →
       sha256Hex token ≠ d)
    (h : NoKey d s) : NoKey d (applyOp s op) := by
  obtain ⟨hk, hf⟩ := h
  cases op with
  | validate key ip now =>
      by_cases hkey : key = ""
      · constructor
        · simp only [applyOp, validate_key, if_pos hkey,
            (log_failed_attempt_fields ip "empty_key" now s).1]
          exact hk
        · simp only [applyOp, validate_key, if_pos hkey,
            (log_failed_attempt_fields ip "empty_key" now s).2.1]
          exact hf
      · have hrk : lookupA (reloadIfNeeded now s).keys d = none := by
          rcases reloadIfNeeded_keys now s with hh | hh <;> rw [hh] <;> assumption
        have hrf : lookupA (reloadIfNeeded now s).keyFile d = none := by
          rw [reloadIfNeeded_keyFile]
          exact hf
        cases hlook : lookupA (reloadIfNeeded now s).keys (sha256Hex key) with
        | some rec0 =>
            have hne : sha256Hex key ≠ d := by
              intro hh
              rw [hh, hrk] at hlook
              exact Option.noConfusion hlook
            constructor
            · simp only [applyOp, validate_key, if_neg hkey, hlook]
              rw [lookupA_insertA, if_neg hne]
              exact hrk
            · simp only [applyOp, validate_key, if_neg hkey, hlook]
              exact hrf
        | none =>
            constructor
            · simp only [applyOp, validate_key, if_neg hkey, hlook,
                (log_failed_attempt_fields ip "invalid_key" now _).1]
              exact hrk
            · simp only [applyOp, validate_key, if_neg hkey, hlook,
                (log_failed_attempt_fields ip "invalid_key" now _).2.1]
              exact hrf
  | genkey token nm perms now =>
      have hne := hop token nm perms now rfl
      constructor
      · simp only [applyOp, generate_key, save_keys]
        rw [lookupA_insertA, if_neg hne]
        exact hk
      · simp only [applyOp, generate_key, save_keys]
        rw [lookupA_insertA, if_neg hne]
        exact hk
  | revoke key =>
      cases hlook : lookupA s.keys (sha256Hex key) with
      | some rec0 =>
          constructor
          · simp only [applyOp, revoke_key, hlook, save_keys]
            exact lookupA_eraseA_none _ _ _ hk
          · simp only [applyOp, revoke_key, hlook, save_keys]
            exact lookupA_eraseA_none _ _ _ hk
      | none =>
          constructor
          · simp only [applyOp, revoke_key, hlook]
            exact hk
          · simp only [applyOp, revoke_key, hlook]
            exact hf
  | save =>
      constructor
      · simp only [applyOp, save_keys]
        exact hk
      · simp only [applyOp, save_keys]
        exact hk
  | load now =>
      constructor
      · simp only [applyOp, load_keys]
        exact hf
      · simp only [applyOp, load_keys]
        exact hf

theorem noKey_runMgr (d : String) :
    ∀ (ops : List MgrOp) (s : ManagerState),
      (∀ token nm perms now, MgrOp.genkey token nm perms now ∈ ops →
         sha256Hex token ≠ d) →
      NoKey d s → NoKey d (runMgr s ops) := by
  intro ops
  induction ops with
  | nil => intro s _ h; exact h
  | cons op rest ih =>
      intro s hops h
      exact ih (applyOp s op) (fun token nm perms now hm => hops token nm perms now
          (by simp [hm]))
        (noKey_applyOp d s op
          (fun token nm perms now he => hops token nm perms now (by simp [he])) h)

theorem validate_none_of_noKey (key ip : String) (now : ℤ) (s : ManagerState)
    (h : NoKey (sha256Hex key) s) : (validate_key key ip now s).1 = none := by
  by_cases hkey : key = ""
  · simp only [validate_key, if_pos hkey]
  · have hrk : lookupA (reloadIfNeeded now s).keys (sha256Hex key) = none := by
      rcases reloadIfNeeded_keys now s with hh | hh <;> rw [hh]
      · exact h.1
      · exact h.2
    simp only [validate_key, if_neg hkey, hrk]

/-- Claim C6: when a record exists for the raw key, revoke_key returns true
and removes it from the store and the persisted file, a second revoke_key
returns false (idempotence), and every later validate_key on that raw key
returns none across any operation sequence that does not re-issue a token
with the same digest. -/
theorem revoke_spec :
    ∀ (key : String) (s : ManagerState) (r : KeyRecord),
      DKeys s.keys →
      lookupA s.keys (sha256Hex key) = some r →
      (revoke_key key s).1 = true
      ∧ (revoke_key key (revoke_key key s).2).1 = false
      ∧ (∀ ops : List MgrOp,
          (∀ token nm perms now, MgrOp.genkey token nm perms now ∈ ops →
             sha256Hex token ≠ sha256Hex key) →
          ∀ (ip : String) (now : ℤ),
            (validate_key key ip now (runMgr (revoke_key key s).2 ops)).1 = none) := by
  intro key s r hdk hlook
  have hnk : NoKey (sha256Hex key) (revoke_key key s).2 := by
    have he := lookupA_eraseA_self s.keys (sha256Hex key) hdk
    constructor
    · simp only [revoke_key, hlook, save_keys]
      exact he
    · simp only [revoke_key, hlook, save_keys]
      exact he
  refine ⟨by simp only [revoke_key, hlook], ?_, ?_⟩
  · have hrv : ∀ s2 : ManagerState, lookupA s2.keys (sha256Hex key) = none →
        (revoke_key key s2).1 = false := by
      intro s2 h2
      simp only [revoke_key, h2]
    exact hrv _ hnk.1
  · intro ops hops ip now
    exact validate_none_of_noKey key ip now _ (noKey_runMgr _ ops _ hops hnk)

/-- Witness for C6 on a one-key store with no interleaved operations. -/
theorem revoke_spec_witness :
    (revoke_key "k" ⟨[(sha256Hex "k", ⟨"n", ["*"], 0, none, 0⟩)], [], 0, []⟩).1 = true
  ∧ (revoke_key "k"
      (revoke_key "k" ⟨[(sha256Hex "k", ⟨"n", ["*"], 0, none, 0⟩)], [], 0, []⟩).2).1 = false
  ∧ (validate_key "k" "10.0.0.1" 99
      (runMgr (revoke_key "k"
        ⟨[(sha256Hex "k", ⟨"n", ["*"], 0, none, 0⟩)], [], 0, []⟩).2 [])).1 = none := by
  have h := revoke_spec "k" ⟨[(sha256Hex "k", ⟨"n", ["*"], 0, none, 0⟩)], [], 0, []⟩
    ⟨"n", ["*"], 0, none, 0⟩ (by simp [DKeys]) (by simp [lookupA])
  exact ⟨h.1, h.2.1, h.2.2 []
    (fun token nm perms now hm => absurd hm (List.not_mem_nil _)) "10.0.0.1" 99⟩


end CachePilot
